import Mathlib

/-
Verification development for the publisher-report service
(src/app.py, src/sheets_client.py, src/ringba_client.py).

The spreadsheet is modelled as the list of rows returned by
sheet.get_all_values(): element 0 is the header row, and the sheet row
number of element i is i + 1.  Cells are strings; Python str.strip(),
str.upper() and str.lower() are modelled by executable functions over the
character list of the string.  Publisher dictionaries are modelled by a
structure of optional fields (a missing dict key is none); dict.get(k, v)
is field.getD v.  Numeric payout values are modelled by Rat and call
counts by Int.  External effects (the Ringba fetch, failing store calls)
are oracles passed in as parameters; fallible control flow is modelled
with Except.
-/

namespace PublisherReport

/-! ## Python string primitives -/

/-- Whitespace characters recognised by Python str.strip(). -/
def isPySpace (c : Char) : Bool :=
  c == ' ' || c == '\t' || c == '\n' || c == '\r' || c == Char.ofNat 11 || c == Char.ofNat 12

/-- ASCII uppercase conversion of one character (Python str.upper on ASCII data). -/
def upChar (c : Char) : Char :=
  if 97 ≤ c.toNat && c.toNat ≤ 122 then Char.ofNat (c.toNat - 32) else c

/-- ASCII lowercase conversion of one character (Python str.lower on ASCII data). -/
def downChar (c : Char) : Char :=
  if 65 ≤ c.toNat && c.toNat ≤ 90 then Char.ofNat (c.toNat + 32) else c

/-- Python str.strip(). -/
def pyStrip (s : String) : String :=
  ⟨((s.data.dropWhile isPySpace).reverse.dropWhile isPySpace).reverse⟩

/-- Python str.upper(). -/
def pyUpper (s : String) : String := ⟨s.data.map upChar⟩

/-- Python str.lower(). -/
def pyLower (s : String) : String := ⟨s.data.map downChar⟩

/-- The composition str(x).strip().upper() used on status cells throughout the code. -/
def normStatus (x : String) : String := pyUpper (pyStrip x)

/-! ## Sheet model -/

abbrev Row := List String

/-- A worksheet as returned by get_all_values(): element 0 is the header row. -/
abbrev Sheet := List Row

/-- str(row[i]) guarded by len(row) > i; reading a missing cell yields "". -/
def cellAt (r : Row) (i : Nat) : String := r.getD i ""

/-- The last 0-based index of a header column whose lowercased name equals the
given name, scanning from offset i: models the loops
for idx, col_name in enumerate(header): if col_name.lower() == name: found = idx
where a later match overwrites an earlier one. -/
def findColLastFrom (name : String) : Nat → List String → Option Nat
  | _, [] => none
  | i, c :: t =>
    match findColLastFrom name (i + 1) t with
    | some j => some j
    | none => if pyLower c == name then some i else none

def findColLast (header : List String) (name : String) : Option Nat :=
  findColLastFrom name 0 header

/-- First matching column index (the variant of the loop that breaks on a match). -/
def findColFirstFrom (name : String) : Nat → List String → Option Nat
  | _, [] => none
  | i, c :: t => if pyLower c == name then some i else findColFirstFrom name (i + 1) t

def findColFirst (header : List String) (name : String) : Option Nat :=
  findColFirstFrom name 0 header

/-- sheet.update("1:1", [keys]): overwrite the header row. -/
def setHeaderRow (s : Sheet) (keys : Row) : Sheet :=
  match s with
  | [] => [keys]
  | _ :: t => keys :: t

/-- sheet.update(range, rows) for the 1-indexed row range starting at start:
overwrite that many rows, extending the sheet when the range lies beyond its end. -/
def overwriteRange (s : Sheet) (start : Nat) (rows : List Row) : Sheet :=
  let base := if s.length < start - 1 then s ++ List.replicate (start - 1 - s.length) [] else s
  base.take (start - 1) ++ rows ++ base.drop (start - 1 + rows.length)

/-- sheet.batch_clear(["a:b"]): rows a..b (1-indexed) become empty. -/
def clearRange (s : Sheet) (a b : Nat) : Sheet :=
  s.enum.map (fun q => if a ≤ q.1 + 1 ∧ q.1 + 1 ≤ b then ([] : Row) else q.2)

/-- Write value v into 0-based cell c of a row, padding the row with empty
cells when it is shorter than c + 1 (a sheet cell always exists in the grid). -/
def setCellRow (r : Row) (c : Nat) (v : String) : Row :=
  (r ++ List.replicate (c + 1 - r.length) "").set c v

/-- sheet.update on a single cell: 1-indexed row p, 0-based column c
(the code addresses the cell in A1 notation, chr(65 + c) followed by p). -/
def setCellSheet (s : Sheet) (p c : Nat) (v : String) : Sheet :=
  match s, p with
  | s, 0 => s
  | [], p + 1 => List.replicate p [] ++ [setCellRow [] c v]
  | r :: t, 1 => setCellRow r c v :: t
  | r :: t, Nat.succ (Nat.succ p) => r :: setCellSheet t (p + 1) c v

/-- for row_num in rows_to_delete: sheet.delete_rows(row_num) — row numbers are
1-indexed, deleted in the list order. -/
def applyDeletes (s : Sheet) (ps : List Nat) : Sheet :=
  ps.foldl (fun t p => t.eraseIdx (p - 1)) s

/-! ## Row-position bookkeeping

The Python code scans enumerate(all_values[1:], start=2), collects 1-indexed
row numbers satisfying a condition, and then deletes or patches those rows.
marksFrom collects the row numbers; dropMarked and patchMarked describe the
effect of deleting, resp. patching, a set of absolute row numbers while
scanning the sheet from a given absolute position. -/

/-- Row numbers (starting at absolute position i) of the rows satisfying cond. -/
def marksFrom (cond : Row → Bool) : Nat → List Row → List Nat
  | _, [] => []
  | i, r :: t => if cond r then i :: marksFrom cond (i + 1) t else marksFrom cond (i + 1) t

/-- Remove the rows whose absolute position (starting at i) is listed in ps. -/
def dropMarked (ps : List Nat) : Nat → List Row → List Row
  | _, [] => []
  | i, r :: t => if ps.contains i then dropMarked ps (i + 1) t else r :: dropMarked ps (i + 1) t

/-- Keep the elements of the second list at the positions where the first
(equal-length) list fails cond; used because the code computes the rows to
delete from a stale snapshot and then deletes them from the current sheet. -/
def dropWhereOther (cond : Row → Bool) : List Row → List Row → List Row
  | [], _ => []
  | _ :: _, [] => []
  | a :: t, b :: u => if cond a then dropWhereOther cond t u else b :: dropWhereOther cond t u

/-- Patch cell c to v in the rows whose absolute position (starting at i) is in ps. -/
def patchMarked (ps : List Nat) (c : Nat) (v : String) : Nat → List Row → List Row
  | _, [] => []
  | i, r :: t =>
    (if ps.contains i then setCellRow r c v else r) :: patchMarked ps c v (i + 1) t

/-- Insertion step of Python list.sort() (ascending). -/
def insertAsc (n : Nat) : List Nat → List Nat
  | [] => [n]
  | m :: l => if n ≤ m then n :: m :: l else m :: insertAsc n l

/-- Python list.sort(). -/
def sortAsc (l : List Nat) : List Nat := l.foldr insertAsc []

/-- Insertion step of Python list.sort(reverse=True). -/
def insertDesc (n : Nat) : List Nat → List Nat
  | [] => [n]
  | m :: l => if m ≤ n then n :: m :: l else m :: insertDesc n l

/-- Python list.sort(reverse=True). -/
def sortDesc (l : List Nat) : List Nat := l.foldr insertDesc []

/-- The last element of a list as a zero-or-one element list. -/
def lastSingleton (l : List Row) : List Row :=
  match l.getLast? with
  | none => []
  | some r => [r]

/-- Reference shape for the duplicate cleanup on rows sharing one bucket:
drop every cond-row that is followed by a later cond-row. -/
def collapseLive (cond : Row → Bool) : List Row → List Row
  | [] => []
  | r :: t => if cond r && t.any cond then collapseLive cond t else r :: collapseLive cond t

/-! ## Publisher records -/

/-- A publisher dict.  get_publisher_payouts produces dicts with only the
"Publisher" and "Payout" keys; other code paths read the further keys with
defaults, so every key the code ever reads is modelled as an optional field. -/
structure Pub where
  date : Option String := none
  publisher : Option String := none
  campaign : Option String := none
  target : Option String := none
  payout : Option Rat := none
  completedCalls : Option Int := none
  paidCalls : Option Int := none
  status : Option String := none
deriving Repr, DecidableEq

/-- str(pub.get("Payout", "")): the empty string for a missing key, otherwise
the decimal rendering of the number. -/
def strOptQ : Option Rat → String
  | none => ""
  | some q => toString q

/-- Row written by write_publisher_payouts for one record:
[Date, Publisher, Campaign, Payout, "", "FINAL"]. -/
def payoutRow (pub : Pub) : Row :=
  [pub.date.getD "", pub.publisher.getD "", pub.campaign.getD "", strOptQ pub.payout, "", "FINAL"]

/-- One record folded into dates_to_process: add its non-empty stripped "Date"
value to the set (modelled as the insertion-ordered list of distinct values). -/
def datesStep (acc : List String) (p : Pub) : List String :=
  if !(pyStrip (p.date.getD "") == "") && !(acc.contains (pyStrip (p.date.getD ""))) then
    acc ++ [pyStrip (p.date.getD "")]
  else acc

/-- dates_to_process: the set of non-empty stripped "Date" values of the records. -/
def datesOf (pubs : List Pub) : List String :=
  pubs.foldl datesStep []

/-! ## Cumulative hourly aggregation (get_cumulative_hourly_data) -/

/-- The (Publisher, Campaign, Target) grouping key of a record. -/
def keyOf3 (p : Pub) : String × String × String :=
  (p.publisher.getD "", p.campaign.getD "", p.target.getD "")

/-- The numeric fields accumulated per key. -/
structure Totals where
  payout : Rat
  completed : Int
  paid : Int
deriving Repr, DecidableEq

def zeroTotals : Totals := ⟨0, 0, 0⟩

/-- cumulative_dict[key] += pub: float(pub.get("Payout", 0)) etc. -/
def addTotals (t : Totals) (p : Pub) : Totals :=
  ⟨t.payout + p.payout.getD 0, t.completed + p.completedCalls.getD 0, t.paid + p.paidCalls.getD 0⟩

/-- The fresh entry stored when a key is first seen. -/
def totalsOf (p : Pub) : Totals :=
  ⟨p.payout.getD 0, p.completedCalls.getD 0, p.paidCalls.getD 0⟩

/-- The insertion-ordered dict keyed by (Publisher, Campaign, Target). -/
abbrev HourDict := List ((String × String × String) × Totals)

def dictLookup (d : HourDict) (k : String × String × String) : Option Totals :=
  (d.find? (fun e => e.1 == k)).map (fun e => e.2)

/-- One record folded into the dict: sum into an existing entry, else append. -/
def mergePub (d : HourDict) (p : Pub) : HourDict :=
  if d.any (fun e => e.1 == keyOf3 p) then
    d.map (fun e => if e.1 == keyOf3 p then (e.1, addTotals e.2 p) else e)
  else d ++ [(keyOf3 p, totalsOf p)]

/-- One fetched hour folded into the dict. -/
def accumHour (d : HourDict) (pubs : List Pub) : HourDict := pubs.foldl mergePub d

/-- The dict built by get_cumulative_hourly_data for hours 9 .. H: each hour is
fetched through the oracle fetchHour; a fetch error is logged and the hour
skipped (the per-hour try/except). -/
def cumulativeDict (fetchHour : Nat → Except String (List Pub)) (H : Nat) : HourDict :=
  (List.range' 9 (H + 1 - 9)).foldl
    (fun d h =>
      match fetchHour h with
      | Except.ok ps => accumHour d ps
      | Except.error _ => d)
    []

/-- get_cumulative_hourly_data: the dict entries, each stamped with Date and Status. -/
def getCumulativeHourlyData (fetchHour : Nat → Except String (List Pub))
    (dateStr : String) (H : Nat) (status : String) : List Pub :=
  (cumulativeDict fetchHour H).map (fun e =>
    { publisher := some e.1.1, campaign := some e.1.2.1, target := some e.1.2.2,
      payout := some e.2.payout, completedCalls := some e.2.completed,
      paidCalls := some e.2.paid, date := some dateStr, status := some status })

/-! ## Ringba response normalisation (get_publisher_payouts) -/

/-- One entry of the "groups" array of the Ringba response.  The code probes the
key variants publisherName / Publisher / publisher / name for the publisher and
payoutAmount / Payout / payout / amount for the payout. -/
structure RingbaGroup where
  publisherName : Option String := none
  Publisher : Option String := none
  publisher : Option String := none
  name : Option String := none
  payoutAmount : Option Rat := none
  Payout : Option Rat := none
  payout : Option Rat := none
  amount : Option Rat := none
deriving Repr, DecidableEq

/-- Python a or b chaining on strings: None and "" are falsy. -/
def orFalsyS : Option String → String → String
  | some s, dflt => if s == "" then dflt else s
  | none, dflt => dflt

/-- Python a or b chaining on numbers: None and 0 are falsy. -/
def orFalsyQ : Option Rat → Rat → Rat
  | some q, dflt => if q == 0 then dflt else q
  | none, dflt => dflt

def pickName (g : RingbaGroup) : String :=
  orFalsyS g.publisherName (orFalsyS g.Publisher (orFalsyS g.publisher (orFalsyS g.name "Unknown")))

def pickPayout (g : RingbaGroup) : Rat :=
  orFalsyQ g.payoutAmount (orFalsyQ g.Payout (orFalsyQ g.payout (orFalsyQ g.amount 0)))

/-- if publisher_name != "Unknown" or payout_amount != 0. -/
def ringbaAccepts (g : RingbaGroup) : Bool :=
  !(pickName g == "Unknown") || !(pickPayout g == 0)

/-- The normalisation loop of get_publisher_payouts over the "groups" array:
one output record per accepted group, keys "Publisher" and "Payout" only. -/
def getPublisherPayoutsExtract (groups : List RingbaGroup) : List Pub :=
  groups.filterMap (fun g =>
    if ringbaAccepts g then
      some { publisher := some (pickName g), payout := some (pickPayout g) }
    else none)

/-! ## sheets_client.GoogleSheetsClient -/

/-- The fixed header written by write_publisher_payouts. -/
def dailyHeader : Row := ["Date", "Publisher", "Campaign", "Payout", "", "Status"]

/-- _ensure_status_column. -/
def ensureStatusColumn (s : Sheet) : Sheet :=
  let header := s.headD []
  if header.any (fun c => pyLower c == "status") then s
  else
    let padded := header ++ List.replicate (6 - header.length) ""
    setHeaderRow s (padded.set 5 "Status")

/-- _has_finalized_data_for_date. -/
def hasFinalizedDataForDate (s : Sheet) (target : String) : Bool :=
  if s.length ≤ 1 then false
  else
    match findColLast (s.headD []) "date", findColLast (s.headD []) "status" with
    | some d, some st =>
      s.tail.any (fun r =>
        decide (d < r.length) && (pyStrip (cellAt r d) == target) &&
        decide (st < r.length) && (normStatus (cellAt r st) == "FINAL"))
    | _, _ => false

/-- Row condition of _delete_today_live_rows: date equals today and, when a
status column exists, status is LIVE. -/
def delLiveCond (today : String) (d : Nat) (st? : Option Nat) (r : Row) : Bool :=
  decide (d < r.length) && (pyStrip (cellAt r d) == today) &&
    (match st? with
     | some st => decide (st < r.length) && (normStatus (cellAt r st) == "LIVE")
     | none => true)

/-- _delete_today_live_rows. -/
def deleteTodayLiveRows (s : Sheet) (today : String) : Sheet :=
  if s.length ≤ 1 then s
  else
    match findColLast (s.headD []) "date" with
    | none => s
    | some d =>
      let st? := findColLast (s.headD []) "status"
      applyDeletes s (sortDesc (marksFrom (delLiveCond today d st?) 2 s.tail))

/-- One output row of write_today_hourly_payouts: [""] * max(len(header), 6),
with Date / Publisher / Campaign / Payout / Status placed by header lookup with
the positional fallbacks of the code, and status forced to "LIVE". -/
def buildHourlyRow (header : List String) (today : String) (pub : Pub) : Row :=
  let r0 := List.replicate (max header.length 6) ""
  let r1 :=
    match findColLast header "date" with
    | some i => r0.set i (pub.date.getD today)
    | none => if 0 < header.length then r0.set 0 (pub.date.getD today) else r0
  let r2 :=
    match findColLast header "publisher" with
    | some i => r1.set i (pub.publisher.getD "")
    | none => if 1 < header.length then r1.set 1 (pub.publisher.getD "") else r1
  let r3 :=
    match findColLast header "campaign" with
    | some i => r2.set i (pub.campaign.getD "")
    | none => if 2 < header.length then r2.set 2 (pub.campaign.getD "") else r2
  let r4 :=
    match findColLast header "payout" with
    | some i => r3.set i (strOptQ pub.payout)
    | none => if 3 < header.length then r3.set 3 (strOptQ pub.payout) else r3
  match findColLast header "status" with
  | some i => r4.set i "LIVE"
  | none => r4.set 5 "LIVE"

/-- write_today_hourly_payouts. -/
def writeTodayHourlyPayouts (s : Sheet) (pubs : List Pub) (today : String) : Sheet :=
  if pubs.isEmpty then s
  else
    let s1 := ensureStatusColumn s
    if hasFinalizedDataForDate s1 today then s1
    else
      let s2 := deleteTodayLiveRows s1 today
      let header := s2.headD []
      let rows := pubs.map (buildHourlyRow header today)
      let nextRow := s2.length + 1
      let s3 :=
        if header.length < (rows.headD []).length then
          setHeaderRow s2 (header ++ List.replicate ((rows.headD []).length - header.length) "")
        else s2
      overwriteRange s3 nextRow rows

/-- Row condition of finalize_live_data_for_dates: date in the date set and
status LIVE. -/
def finCond (ds : List String) (d st : Nat) (r : Row) : Bool :=
  decide (d < r.length) && ds.contains (pyStrip (cellAt r d)) &&
    decide (st < r.length) && (normStatus (cellAt r st) == "LIVE")

/-- finalize_live_data_for_dates: patch the status cell of every matching row
to "FINAL" (one single-cell update per row). -/
def finalizeLiveDataForDates (s : Sheet) (dates : List String) : Sheet :=
  if dates.isEmpty then s
  else if s.length ≤ 1 then s
  else
    match findColLast (s.headD []) "date", findColLast (s.headD []) "status" with
    | some _, some st =>
      match findColLast (s.headD []) "date" with
      | some d =>
        let marks := marksFrom (finCond dates d st) 2 s.tail
        marks.foldl (fun t p => setCellSheet t p st "FINAL") s
      | none => s
    | _, _ => s

/-- Row condition of the delete pass in write_publisher_payouts: the row date
is one of the dates being written. -/
def delDateCond (ds : List String) (d : Nat) (r : Row) : Bool :=
  decide (d < r.length) && ds.contains (pyStrip (cellAt r d))

/-- write_publisher_payouts. -/
def writePublisherPayouts (s : Sheet) (pubs : List Pub) (clearExisting : Bool) : Sheet :=
  if pubs.isEmpty then s
  else
    let s1 := ensureStatusColumn s
    let s2 := setHeaderRow s1 dailyHeader
    let rows := pubs.map payoutRow
    if clearExisting then
      let s3 := if 1 < s2.length then clearRange s2 2 s2.length else s2
      overwriteRange s3 2 rows
    else if s2.length ≤ 1 then overwriteRange s2 2 rows
    else
      let t := s2.tail
      let ds := datesOf pubs
      let s4 :=
        if ds.isEmpty then s2
        else
          let s3 := finalizeLiveDataForDates s2 ds
          match findColFirst (s2.headD []) "date" with
          | none => s3
          | some d => applyDeletes s3 (sortDesc (marksFrom (delDateCond ds d) 2 t))
      overwriteRange s4 (s4.length + 1) rows

/-! ## app.py -/

/-- Row condition of finalize_previous_day_data: the row is long enough for the
hard-coded status column H (index 7), is not dated today, has status LIVE and is
dated the previous day. -/
def fpCondFull (today prev : String) (r : Row) : Bool :=
  decide (7 < r.length) && !(pyStrip (cellAt r 0) == today) &&
    (normStatus (cellAt r 7) == "LIVE") && (pyStrip (cellAt r 0) == prev)

/-- The same condition without the today-guard, for stating the theorem when
today and the previous day differ. -/
def fpEligible (prev : String) (r : Row) : Bool :=
  decide (7 < r.length) && (normStatus (cellAt r 7) == "LIVE") && (pyStrip (cellAt r 0) == prev)

/-- finalize_previous_day_data (the sheet transformation of a run in which every
store call succeeds): patch column H of every eligible row to "FINAL". -/
def finalizePreviousDayData (s : Sheet) (today prev : String) : Sheet :=
  if s.length ≤ 1 then s
  else
    (marksFrom (fpCondFull today prev) 2 s.tail).foldl
      (fun t p => setCellSheet t p 7 "FINAL") s

/-- Grouping condition of cleanup_hourly_duplicates: the row reaches the hour
column (index 7), its status (index 6) is not FINAL, and its hour identifier is
non-empty. -/
def cleanupRowCond (r : Row) : Bool :=
  decide (7 < r.length) && !(normStatus (cellAt r 6) == "FINAL") &&
    !(pyStrip (cellAt r 7) == "")

/-- rows_by_hour[hour_identifier].append(row_number): insertion-ordered dict of
lists. -/
def dictAppend (d : List (String × List Nat)) (k : String) (p : Nat) :
    List (String × List Nat) :=
  match d with
  | [] => [(k, [p])]
  | e :: rest => if e.1 == k then (e.1, e.2 ++ [p]) :: rest else e :: dictAppend rest k p

/-- The grouping loop of cleanup_hourly_duplicates over the data rows, i being
the sheet row number of the next row. -/
def rowsByHourGo : Nat → List (String × List Nat) → List Row → List (String × List Nat)
  | _, acc, [] => acc
  | i, acc, r :: t =>
    rowsByHourGo (i + 1)
      (if cleanupRowCond r then dictAppend acc (pyStrip (cellAt r 7)) i else acc) t

/-- cleanup_hourly_duplicates: group non-FINAL rows by hour identifier, keep the
last row of each group with more than one member, delete the others bottom-up. -/
def cleanupHourlyDuplicates (s : Sheet) : Sheet :=
  if s.length ≤ 1 then s
  else
    let groups := rowsByHourGo 2 [] s.tail
    let rowsToDelete :=
      groups.foldl (fun acc e => if 1 < e.2.length then acc ++ (sortAsc e.2).dropLast else acc) []
    applyDeletes s (sortDesc rowsToDelete)

/-- run_end_of_day_report, given the concatenated fetch results of its day
range (one fetch Tuesday-Friday, the Friday/Saturday/Sunday fetches on Monday):
if any records were fetched they are passed unchanged to
write_publisher_payouts(..., clear_existing=False). -/
def runEndOfDayReport (allPublishers : List Pub) (s : Sheet) : Sheet :=
  if allPublishers.isEmpty then s else writePublisherPayouts s allPublishers false

/-! ## Error-flow models of the scheduled entry points

Each entry point wraps its whole body in try/except Exception, logs and
returns.  The bodies are modelled in Except with the external calls as
oracles; catchAll is the except clause. -/

/-- try: body except Exception: log — the error is swallowed. -/
def catchAll (x : Except String Unit) : Except String Unit :=
  match x with
  | Except.error _ => Except.ok ()
  | Except.ok u => Except.ok u

/-- Models the call hourly_sheets_client.write_hourly_publisher_payouts(...)
made by run_hourly_report.  GoogleSheetsClient (sheets_client.py) defines no
method of this name, so in Python the attribute access raises AttributeError
before any sheet operation is performed. -/
def writeHourlyPublisherPayouts (s : Sheet) (pubs : List Pub) : Except String Sheet :=
  Except.error "AttributeError: GoogleSheetsClient has no attribute named write_hourly_publisher_payouts"

/-- run_hourly_report: operating-window guards, fetch of the previous hour,
cumulative recomputation, then the (missing) hourly write; the whole body sits
in try/except.  Returns the entry-point result and the hourly sheet after the
run. -/
def runHourlyReport (currentHour prevHourNum : Nat)
    (fetch : Except String (List Pub)) (fetchHour : Nat → Except String (List Pub))
    (dateStr : String) (s : Sheet) : Except String Unit × Sheet :=
  if currentHour < 9 || 21 < currentHour then (Except.ok (), s)
  else if prevHourNum < 9 || 21 ≤ prevHourNum then (Except.ok (), s)
  else
    match fetch with
    | Except.error e => (catchAll (Except.error e), s)
    | Except.ok pubs =>
      if pubs.isEmpty then (Except.ok (), s)
      else
        let cum := getCumulativeHourlyData fetchHour dateStr prevHourNum "LIVE"
        match writeHourlyPublisherPayouts s cum with
        | Except.error e => (catchAll (Except.error e), s)
        | Except.ok s2 => (Except.ok (), s2)

/-- run_end_of_day_report error flow: the day fetches run in order (an error
aborts the remaining ones), then the write runs when records were fetched;
everything sits in try/except. -/
def runEndOfDayReportE (fetches : List (Except String (List Pub)))
    (writeRes : Except String Unit) : Except String Unit :=
  catchAll
    (match fetches.foldlM (fun acc f => f.map (fun ps => acc ++ ps)) ([] : List Pub) with
     | Except.error e => Except.error e
     | Except.ok pubs => if pubs.isEmpty then Except.ok () else writeRes)

/-- finalize_previous_day_data error flow: an outer try around the whole body,
an inner try around the sheet read and update loop, and one try per single-cell
update whose failure only increments a counter. -/
def finalizePreviousDayDataE (getAll : Except String Sheet)
    (updateCell : Nat → Except String Unit) (today prev : String) : Except String Unit :=
  catchAll (catchAll
    (match getAll with
     | Except.error e => Except.error e
     | Except.ok s =>
       if s.length ≤ 1 then Except.ok ()
       else
         (marksFrom (fpCondFull today prev) 2 s.tail).foldlM
           (fun _ p => catchAll (updateCell p)) ()))

/-- Frame property of a finalization pass: the sheet keeps its shape and every
cell other than status column st keeps its value; the status cell either keeps
its value or moves from LIVE to FINAL. -/
def statusOnlyPatch (s s2 : Sheet) (st : Nat) : Prop :=
  s2.length = s.length ∧
  ∀ i, i < s.length →
    (s2.getD i []).length = (s.getD i []).length ∧
    (∀ c, c ≠ st → cellAt (s2.getD i []) c = cellAt (s.getD i []) c) ∧
    (cellAt (s2.getD i []) st = cellAt (s.getD i []) st ∨
      (normStatus (cellAt (s.getD i []) st) = "LIVE" ∧ cellAt (s2.getD i []) st = "FINAL"))

/-- The (publisher, campaign) pair of a fetched record, exactly as
write_publisher_payouts writes it into columns B and C of the daily sheet. -/
def pubKey (p : Pub) : String × String := (p.publisher.getD "", p.campaign.getD "")

/-! ## Machinery lemmas: row marks, deletion, patching -/

theorem natContains (l : List Nat) (a : Nat) : l.contains a = decide (a ∈ l) := by
  simp [List.contains]

theorem marksFrom_mem_ge {cond : Row → Bool} {t : List Row} {i q : Nat}
    (h : q ∈ marksFrom cond i t) : i ≤ q := by
  induction t generalizing i with
  | nil => simp [marksFrom] at h
  | cons r t2 ih =>
    by_cases hc : cond r
    · simp only [marksFrom, hc, if_pos, List.mem_cons] at h
      rcases h with h | h
      · omega
      · have := ih h; omega
    · simp only [marksFrom, hc, if_neg, Bool.false_eq_true, not_false_iff] at h
      have := ih h; omega

theorem marksFrom_mem_lt {cond : Row → Bool} {t : List Row} {i q : Nat}
    (h : q ∈ marksFrom cond i t) : q < i + t.length := by
  induction t generalizing i with
  | nil => simp [marksFrom] at h
  | cons r t2 ih =>
    by_cases hc : cond r
    · simp only [marksFrom, hc, if_pos, List.mem_cons] at h
      rcases h with h | h
      · simp [h]
      · have := ih h; simp only [List.length_cons]; omega
    · simp only [marksFrom, hc, if_neg, Bool.false_eq_true, not_false_iff] at h
      have := ih h; simp only [List.length_cons]; omega

theorem marksFrom_pairwise (cond : Row → Bool) (t : List Row) (i : Nat) :
    (marksFrom cond i t).Pairwise (· < ·) := by
  induction t generalizing i with
  | nil => simp [marksFrom]
  | cons r t2 ih =>
    by_cases hc : cond r
    · simp only [marksFrom, hc, if_pos, List.pairwise_cons]
      exact ⟨fun q hq => lt_of_lt_of_le (Nat.lt_succ_self i) (marksFrom_mem_ge hq), ih (i + 1)⟩
    · simpa [marksFrom, hc] using ih (i + 1)

theorem marksFrom_eq_nil {cond : Row → Bool} {t : List Row} {i : Nat} :
    marksFrom cond i t = [] ↔ t.any cond = false := by
  induction t generalizing i with
  | nil => simp [marksFrom]
  | cons r t2 ih =>
    by_cases hc : cond r
    · simp [marksFrom, hc]
    · simp [marksFrom, hc, ih]

theorem marksFrom_congr {c1 c2 : Row → Bool} {t : List Row}
    (h : ∀ r ∈ t, c1 r = c2 r) : ∀ i, marksFrom c1 i t = marksFrom c2 i t := by
  induction t with
  | nil => intro i; rfl
  | cons r t2 ih =>
    intro i
    have hr := h r (List.mem_cons_self r t2)
    have ht : ∀ r2 ∈ t2, c1 r2 = c2 r2 := fun r2 hm => h r2 (List.mem_cons_of_mem r hm)
    simp only [marksFrom, hr, ih ht]

theorem marksFrom_length (cond : Row → Bool) (t : List Row) (i : Nat) :
    (marksFrom cond i t).length = t.countP cond := by
  induction t generalizing i with
  | nil => simp [marksFrom]
  | cons r t2 ih =>
    by_cases hc : cond r
    · simp [marksFrom, hc, List.countP_cons, ih]
    · simp [marksFrom, hc, List.countP_cons, ih]

theorem dropMarked_nil (i : Nat) (t : List Row) : dropMarked [] i t = t := by
  induction t generalizing i with
  | nil => rfl
  | cons r t2 ih => simp [dropMarked, ih]

theorem dropMarked_congr {ps qs : List Nat} (h : ∀ x, x ∈ ps ↔ x ∈ qs) :
    ∀ (t : List Row) (i : Nat), dropMarked ps i t = dropMarked qs i t := by
  intro t
  induction t with
  | nil => intro i; rfl
  | cons r t2 ih =>
    intro i
    have : ps.contains i = qs.contains i := by
      rw [natContains, natContains]
      exact decide_eq_decide.mpr (h i)
    simp only [dropMarked, this, ih]

theorem dropMarked_small {ps : List Nat} {t : List Row} {i : Nat}
    (h : ∀ q ∈ ps, q < i) : dropMarked ps i t = t := by
  induction t generalizing i with
  | nil => rfl
  | cons r t2 ih =>
    have hnc : ps.contains i = false := by
      rw [natContains, decide_eq_false_iff_not]
      intro hm
      exact absurd (h i hm) (lt_irrefl i)
    simp only [dropMarked, hnc, Bool.false_eq_true, if_neg, not_false_iff]
    rw [ih (fun q hq => lt_trans (h q hq) (Nat.lt_succ_self i))]

theorem dropMarked_stale {p i : Nat} (hp : p < i) (ps : List Nat) (t : List Row) :
    dropMarked (p :: ps) i t = dropMarked ps i t := by
  induction t generalizing i with
  | nil => rfl
  | cons r t2 ih =>
    have hc : (p :: ps).contains i = ps.contains i := by
      rw [natContains, natContains]
      apply decide_eq_decide.mpr
      simp only [List.mem_cons]
      constructor
      · rintro (h | h)
        · omega
        · exact h
      · exact fun h => Or.inr h
    simp only [dropMarked, hc]
    rw [ih (Nat.lt_succ_of_lt hp)]

theorem dropMarked_eraseIdx {ps : List Nat} :
    ∀ (t : List Row) (j i : Nat), (∀ q ∈ ps, q < i + j) →
      dropMarked ps i (t.eraseIdx j) = dropMarked ((i + j) :: ps) i t := by
  intro t
  induction t with
  | nil => intro j i _; simp [List.eraseIdx, dropMarked]
  | cons r t2 ih =>
    intro j i hps
    cases j with
    | zero =>
      simp only [List.eraseIdx, Nat.add_zero]
      have h1 : dropMarked ps i t2 = t2 :=
        dropMarked_small (by intro q hq; have := hps q hq; omega)
      have hc : (i :: ps).contains i = true := by
        rw [natContains, decide_eq_true_iff]; exact List.mem_cons_self i ps
      rw [h1]
      simp only [dropMarked, hc, if_pos]
      rw [dropMarked_stale (Nat.lt_succ_self i),
        dropMarked_small (by intro q hq; have := hps q hq; omega)]
    | succ k =>
      simp only [List.eraseIdx]
      have hne : ((i + (k + 1)) :: ps).contains i = ps.contains i := by
        rw [natContains, natContains]
        apply decide_eq_decide.mpr
        simp only [List.mem_cons]
        constructor
        · rintro (h | h)
          · omega
          · exact h
        · exact fun h => Or.inr h
      have harith : i + (k + 1) = (i + 1) + k := by omega
      simp only [dropMarked, hne]
      rw [ih k (i + 1) (by intro q hq; have := hps q hq; omega), harith]

theorem applyDeletes_eq_dropMarked {ps : List Nat} :
    ∀ s : Sheet, ps.Pairwise (· > ·) → (∀ p ∈ ps, 1 ≤ p) →
      applyDeletes s ps = dropMarked ps 1 s := by
  induction ps with
  | nil => intro s _ _; rw [dropMarked_nil]; rfl
  | cons p rest ih =>
    intro s hpw hpos
    have hpw2 := (List.pairwise_cons.mp hpw).2
    have hlt := (List.pairwise_cons.mp hpw).1
    have h1p : 1 ≤ p := hpos p (List.mem_cons_self p rest)
    have step : applyDeletes s (p :: rest) = applyDeletes (s.eraseIdx (p - 1)) rest := rfl
    rw [step, ih (s.eraseIdx (p - 1)) hpw2 (fun q hq => hpos q (List.mem_cons_of_mem p hq))]
    have := @dropMarked_eraseIdx rest s (p - 1) 1
      (by intro q hq; have := hlt q hq; omega)
    have harith : 1 + (p - 1) = p := by omega
    rw [harith] at this
    rw [this]

theorem sortAsc_of_pairwise {l : List Nat} (h : l.Pairwise (· < ·)) : sortAsc l = l := by
  induction l with
  | nil => rfl
  | cons a t ih =>
    have ht := (List.pairwise_cons.mp h).2
    have ha := (List.pairwise_cons.mp h).1
    have : sortAsc (a :: t) = insertAsc a (sortAsc t) := rfl
    rw [this, ih ht]
    cases t with
    | nil => rfl
    | cons b t2 =>
      have hab : a ≤ b := le_of_lt (ha b (List.mem_cons_self b t2))
      simp [insertAsc, hab]

theorem insertDesc_big {l : List Nat} {n : Nat} (h : ∀ m ∈ l, ¬ m ≤ n) :
    insertDesc n l = l ++ [n] := by
  induction l with
  | nil => rfl
  | cons m t ih =>
    have hm : ¬ m ≤ n := h m (List.mem_cons_self m t)
    simp only [insertDesc, hm, if_neg, not_false_iff, List.cons_append]
    rw [ih (fun q hq => h q (List.mem_cons_of_mem m hq))]

theorem sortDesc_of_pairwise {l : List Nat} (h : l.Pairwise (· < ·)) :
    sortDesc l = l.reverse := by
  induction l with
  | nil => rfl
  | cons a t ih =>
    have ht := (List.pairwise_cons.mp h).2
    have ha := (List.pairwise_cons.mp h).1
    have : sortDesc (a :: t) = insertDesc a (sortDesc t) := rfl
    rw [this, ih ht, insertDesc_big (by
      intro m hm
      have := ha m (List.mem_reverse.mp hm)
      omega)]
    simp

theorem dropMarked_marks_other {cond : Row → Bool} :
    ∀ (t u : List Row) (i : Nat), t.length = u.length →
      dropMarked (marksFrom cond i t) i u = dropWhereOther cond t u := by
  intro t
  induction t with
  | nil =>
    intro u i hlen
    cases u with
    | nil => rfl
    | cons b u2 => simp at hlen
  | cons r t2 ih =>
    intro u i hlen
    cases u with
    | nil => simp at hlen
    | cons b u2 =>
      have hlen2 : t2.length = u2.length := by simpa using hlen
      by_cases hc : cond r
      · have hct : ((i :: marksFrom cond (i + 1) t2).contains i) = true := by
          rw [natContains, decide_eq_true_iff]; exact List.mem_cons_self _ _
        simp only [marksFrom, hc, if_pos, dropWhereOther, dropMarked, hct]
        rw [dropMarked_stale (Nat.lt_succ_self i), ih u2 (i + 1) hlen2]
      · have hct : ((marksFrom cond (i + 1) t2).contains i) = false := by
          rw [natContains, decide_eq_false_iff_not]
          intro hm
          have := marksFrom_mem_ge hm
          omega
        simp only [marksFrom, hc, Bool.false_eq_true, if_neg, not_false_iff,
          dropWhereOther, dropMarked, hct]
        rw [ih u2 (i + 1) hlen2]

theorem dropWhereOther_map_id {cond : Row → Bool} {g : Row → Row}
    (hg : ∀ r, cond r = false → g r = r) :
    ∀ t : List Row, dropWhereOther cond t (t.map g) = t.filter (fun r => !cond r) := by
  intro t
  induction t with
  | nil => rfl
  | cons r t2 ih =>
    cases hc : cond r with
    | true =>
      simp only [List.map_cons, dropWhereOther, hc, if_pos, List.filter_cons,
        Bool.not_true]
      simp only [Bool.false_eq_true, if_neg, not_false_iff]
      rw [ih]
    | false =>
      simp only [List.map_cons, dropWhereOther, hc, Bool.false_eq_true, if_neg,
        not_false_iff, List.filter_cons, Bool.not_false, if_pos]
      rw [hg r hc, ih]

theorem contains_cons_of_ne {p i : Nat} (hne : i ≠ p) (ps : List Nat) :
    (p :: ps).contains i = ps.contains i := by
  rw [natContains, natContains]
  apply decide_eq_decide.mpr
  simp only [List.mem_cons]
  constructor
  · rintro (h | h)
    · exact absurd h hne
    · exact h
  · exact fun h => Or.inr h

theorem setCellRow_length_of_lt {r : Row} {c : Nat} (h : c < r.length) (v : String) :
    (setCellRow r c v).length = r.length := by
  simp only [setCellRow, List.length_set, List.length_append, List.length_replicate]
  omega

theorem setCellRow_idem (r : Row) (c : Nat) (v : String) :
    setCellRow (setCellRow r c v) c v = setCellRow r c v := by
  have hlen : c < (setCellRow r c v).length := by
    simp only [setCellRow, List.length_set, List.length_append, List.length_replicate]
    omega
  have hz : c + 1 - (setCellRow r c v).length = 0 := by omega
  conv_lhs => rw [setCellRow]
  rw [hz, List.replicate_zero, List.append_nil, setCellRow, List.set_set]

theorem patchMarked_nil (c : Nat) (v : String) : ∀ (i : Nat) (t : List Row),
    patchMarked [] c v i t = t := by
  intro i t
  induction t generalizing i with
  | nil => rfl
  | cons r t2 ih => simp [patchMarked, List.contains, ih]

theorem patchMarked_stale {p i : Nat} (hp : p < i) (ps : List Nat) (c : Nat) (v : String)
    (t : List Row) : patchMarked (p :: ps) c v i t = patchMarked ps c v i t := by
  induction t generalizing i with
  | nil => rfl
  | cons r t2 ih =>
    simp only [patchMarked, contains_cons_of_ne (by omega : i ≠ p)]
    rw [ih (Nat.lt_succ_of_lt hp)]

theorem setCellSheet_length {s : Sheet} {p : Nat} (h : p ≤ s.length) (c : Nat) (v : String) :
    (setCellSheet s p c v).length = s.length := by
  induction s generalizing p with
  | nil =>
    have : p = 0 := by simpa using h
    subst this; rfl
  | cons r t ih =>
    cases p with
    | zero => rfl
    | succ p2 =>
      cases p2 with
      | zero => simp [setCellSheet]
      | succ q =>
        simp only [setCellSheet, List.length_cons]
        rw [ih (by simp only [List.length_cons] at h; omega)]

theorem patchMarked_setCellSheet {c : Nat} {v : String} :
    ∀ (s : Sheet) (rest : List Nat) (i j : Nat), j < s.length →
      patchMarked rest c v i (setCellSheet s (j + 1) c v) =
        patchMarked ((i + j) :: rest) c v i s := by
  intro s
  induction s with
  | nil => intro rest i j hj; simp at hj
  | cons r t ih =>
    intro rest i j hj
    cases j with
    | zero =>
      have hct : ((i + 0) :: rest).contains i = true := by
        rw [natContains, decide_eq_true_iff]
        simp
      simp only [setCellSheet, patchMarked, hct, if_pos, Nat.add_zero]
      rw [patchMarked_stale (Nat.lt_succ_self i)]
      congr 1
      cases hri : rest.contains i
      · simp [hri]
      · simp [hri, setCellRow_idem]
    | succ k =>
      have hne : ((i + (k + 1)) :: rest).contains i = rest.contains i :=
        contains_cons_of_ne (by omega) rest
      simp only [setCellSheet, patchMarked, hne]
      congr 1
      have harith : i + 1 + k = i + (k + 1) := by omega
      have := ih rest (i + 1) k (by simp only [List.length_cons] at hj; omega)
      rw [harith] at this
      exact this

theorem patchFold {c : Nat} {v : String} :
    ∀ (ps : List Nat) (s : Sheet), (∀ p ∈ ps, 1 ≤ p ∧ p ≤ s.length) →
      ps.foldl (fun t p => setCellSheet t p c v) s = patchMarked ps c v 1 s := by
  intro ps
  induction ps with
  | nil => intro s _; exact (patchMarked_nil c v 1 s).symm
  | cons p rest ih =>
    intro s hb
    have h1 := hb p (List.mem_cons_self p rest)
    have hlen := setCellSheet_length h1.2 c v
    have step : (p :: rest).foldl (fun t q => setCellSheet t q c v) s =
        rest.foldl (fun t q => setCellSheet t q c v) (setCellSheet s p c v) := rfl
    rw [step, ih (setCellSheet s p c v)
      (fun q hq => by
        have := hb q (List.mem_cons_of_mem p hq)
        rw [hlen]
        exact this)]
    obtain ⟨j, rfl⟩ : ∃ j, p = j + 1 := ⟨p - 1, by omega⟩
    have hjs : j < s.length := by omega
    have h2 := @patchMarked_setCellSheet c v s rest 1 j hjs
    have harith : 1 + j = j + 1 := by omega
    rw [harith] at h2
    exact h2

theorem patchMarked_marks {cond : Row → Bool} {c : Nat} {v : String} :
    ∀ (t : List Row) (i : Nat),
      patchMarked (marksFrom cond i t) c v i t =
        t.map (fun r => if cond r then setCellRow r c v else r) := by
  intro t
  induction t with
  | nil => intro i; rfl
  | cons r t2 ih =>
    intro i
    cases hc : cond r with
    | true =>
      have hct : ((i :: marksFrom cond (i + 1) t2).contains i) = true := by
        rw [natContains, decide_eq_true_iff]
        simp
      simp only [marksFrom, hc, if_pos, patchMarked, hct, List.map_cons]
      rw [patchMarked_stale (Nat.lt_succ_self i), ih]
    | false =>
      have hct : ((marksFrom cond (i + 1) t2).contains i) = false := by
        rw [natContains, decide_eq_false_iff_not]
        intro hm
        have := marksFrom_mem_ge hm
        omega
      simp only [marksFrom, hc, Bool.false_eq_true, if_neg, not_false_iff, patchMarked, hct,
        List.map_cons]
      rw [ih]

/-! ## Collapse lemmas for the duplicate cleanup -/

theorem collapseLive_of_no_cond {cond : Row → Bool} : ∀ {t : List Row},
    t.any cond = false → collapseLive cond t = t := by
  intro t h
  induction t with
  | nil => rfl
  | cons r t2 ih =>
    simp only [List.any_cons, Bool.or_eq_false_iff] at h
    simp [collapseLive, h.1, ih h.2]

theorem collapseLive_sublist (cond : Row → Bool) : ∀ t : List Row,
    (collapseLive cond t).Sublist t := by
  intro t
  induction t with
  | nil => simp [collapseLive]
  | cons r t2 ih =>
    by_cases h : cond r && t2.any cond
    · simp only [collapseLive, h, if_pos]
      exact ih.cons r
    · simp only [collapseLive, h, if_neg, not_false_iff]
      exact ih.cons₂ r

theorem collapseLive_cons_true {cond : Row → Bool} {r : Row} {t : List Row}
    (h : (cond r && t.any cond) = true) :
    collapseLive cond (r :: t) = collapseLive cond t := by
  simp [collapseLive, h]

theorem collapseLive_cons_false {cond : Row → Bool} {r : Row} {t : List Row}
    (h : (cond r && t.any cond) = false) :
    collapseLive cond (r :: t) = r :: collapseLive cond t := by
  simp [collapseLive, h]

theorem collapseLive_of_count {cond : Row → Bool} : ∀ {t : List Row},
    t.countP cond ≤ 1 → collapseLive cond t = t := by
  intro t h
  induction t with
  | nil => rfl
  | cons r t2 ih =>
    rw [List.countP_cons] at h
    cases hc : cond r with
    | false =>
      have h2 : t2.countP cond ≤ 1 := by
        simp only [hc, Bool.false_eq_true, if_false] at h
        omega
      rw [collapseLive_cons_false (by rw [hc]; rfl), ih h2]
    | true =>
      have hz : t2.countP cond = 0 := by
        simp only [hc, if_true] at h
        omega
      have hany : t2.any cond = false := by
        cases hx : t2.any cond
        · rfl
        · rcases List.any_eq_true.mp hx with ⟨a, ha, hca⟩
          have : 0 < t2.countP cond := List.countP_pos.mpr ⟨a, ha, hca⟩
          omega
      rw [collapseLive_cons_false (by rw [hc, hany]; rfl), collapseLive_of_no_cond hany]

theorem dropMarked_dropLast_marks {cond : Row → Bool} :
    ∀ (t : List Row) (i : Nat),
      dropMarked ((marksFrom cond i t).dropLast) i t = collapseLive cond t := by
  intro t
  induction t with
  | nil => intro i; rfl
  | cons r t2 ih =>
    intro i
    cases hc : cond r with
    | true =>
      cases hm : marksFrom cond (i + 1) t2 with
      | nil =>
        have hany : t2.any cond = false := marksFrom_eq_nil.mp hm
        simp only [marksFrom, hc, if_pos, hm, List.dropLast_single]
        rw [dropMarked_nil]
        simp [collapseLive, hc, hany, collapseLive_of_no_cond hany]
      | cons q ms =>
        have hne : marksFrom cond (i + 1) t2 ≠ [] := by rw [hm]; simp
        have hany : t2.any cond = true := by
          cases h2 : t2.any cond
          · exact absurd (marksFrom_eq_nil.mpr h2) hne
          · rfl
        have hct : ((i :: (marksFrom cond (i + 1) t2).dropLast).contains i) = true := by
          rw [natContains, decide_eq_true_iff]
          simp
        simp only [marksFrom, hc, if_pos]
        rw [List.dropLast_cons_of_ne_nil hne]
        simp only [dropMarked, hct, if_pos]
        rw [dropMarked_stale (Nat.lt_succ_self i), ih]
        simp [collapseLive, hc, hany]
    | false =>
      have hct : (((marksFrom cond (i + 1) t2).dropLast).contains i) = false := by
        rw [natContains, decide_eq_false_iff_not]
        intro hmem
        have h2 : i ∈ marksFrom cond (i + 1) t2 := List.mem_of_mem_dropLast hmem
        have := marksFrom_mem_ge h2
        omega
      simp only [marksFrom, hc, Bool.false_eq_true, if_neg, not_false_iff, dropMarked, hct]
      rw [ih]
      simp [collapseLive, hc]

theorem lastSingleton_cons_of_ne_nil {l : List Row} (h : l ≠ []) (r : Row) :
    lastSingleton (r :: l) = lastSingleton l := by
  cases l with
  | nil => exact absurd rfl h
  | cons b l2 => simp [lastSingleton, List.getLast?_cons_cons]

theorem filter_collapseLive_other {cond q : Row → Bool}
    (h : ∀ r, cond r = true → q r = false) :
    ∀ t : List Row, (collapseLive cond t).filter q = t.filter q := by
  intro t
  induction t with
  | nil => rfl
  | cons r t2 ih =>
    cases hcond : (cond r && t2.any cond) with
    | true =>
      obtain ⟨hcr, hany⟩ : cond r = true ∧ t2.any cond = true := by simpa using hcond
      rw [collapseLive_cons_true hcond, ih, List.filter_cons, h r hcr]
      simp
    | false =>
      rw [collapseLive_cons_false hcond, List.filter_cons, List.filter_cons, ih]

theorem filter_collapseLive_self {cond : Row → Bool} :
    ∀ t : List Row, (collapseLive cond t).filter cond = lastSingleton (t.filter cond) := by
  intro t
  induction t with
  | nil => rfl
  | cons r t2 ih =>
    cases hcond : (cond r && t2.any cond) with
    | true =>
      obtain ⟨hcr, hany⟩ : cond r = true ∧ t2.any cond = true := by simpa using hcond
      rcases List.any_eq_true.mp hany with ⟨a, ha, hca⟩
      have hne : t2.filter cond ≠ [] :=
        List.ne_nil_of_mem (List.mem_filter.mpr ⟨ha, hca⟩)
      have hx1 : List.filter cond (r :: t2) = r :: List.filter cond t2 := by
        rw [List.filter_cons, hcr]; simp
      rw [collapseLive_cons_true hcond, ih, hx1, lastSingleton_cons_of_ne_nil hne]
    | false =>
      rw [collapseLive_cons_false hcond]
      cases hcr : cond r with
      | false =>
        have hl : List.filter cond (r :: collapseLive cond t2) =
            List.filter cond (collapseLive cond t2) := by
          rw [List.filter_cons, hcr]; simp
        have hr2 : List.filter cond (r :: t2) = List.filter cond t2 := by
          rw [List.filter_cons, hcr]; simp
        rw [hl, hr2, ih]
      | true =>
        have hany : t2.any cond = false := by
          cases hx : t2.any cond
          · rfl
          · rw [hcr, hx] at hcond; simp at hcond
        have hfe : t2.filter cond = [] := by
          rw [List.filter_eq_nil_iff]
          intro a ha
          intro hca
          rw [Bool.eq_false_iff] at hany
          exact hany (List.any_eq_true.mpr ⟨a, ha, hca⟩)
        have hx1 : List.filter cond (r :: t2) = r :: List.filter cond t2 := by
          rw [List.filter_cons, hcr]; simp
        rw [collapseLive_of_no_cond hany, hx1, hfe]
        simp [lastSingleton]

/-! ## Grouping lemmas for cleanup_hourly_duplicates -/

theorem rowsByHourGo_single {h0 : String} :
    ∀ (t : List Row) (i : Nat) (qs : List Nat),
      (∀ r ∈ t, cleanupRowCond r = true → pyStrip (cellAt r 7) = h0) →
      rowsByHourGo i [(h0, qs)] t = [(h0, qs ++ marksFrom cleanupRowCond i t)] := by
  intro t
  induction t with
  | nil => intro i qs _; simp [rowsByHourGo, marksFrom]
  | cons r t2 ih =>
    intro i qs hh
    cases hc : cleanupRowCond r with
    | true =>
      have hkey : pyStrip (cellAt r 7) = h0 := hh r (List.mem_cons_self r t2) hc
      have hbeq : (h0 == h0) = true := by simp
      simp only [rowsByHourGo, hc, if_pos, hkey, dictAppend, hbeq]
      rw [ih (i + 1) (qs ++ [i]) (fun r2 hm => hh r2 (List.mem_cons_of_mem r hm))]
      simp only [marksFrom, hc, if_pos, List.append_assoc]
      rfl
    | false =>
      simp only [rowsByHourGo, hc, Bool.false_eq_true, if_neg, not_false_iff, marksFrom]
      exact ih (i + 1) qs (fun r2 hm => hh r2 (List.mem_cons_of_mem r hm))

theorem rowsByHourGo_empty {h0 : String} :
    ∀ (t : List Row) (i : Nat),
      (∀ r ∈ t, cleanupRowCond r = true → pyStrip (cellAt r 7) = h0) →
      rowsByHourGo i [] t =
        (if marksFrom cleanupRowCond i t = [] then []
         else [(h0, marksFrom cleanupRowCond i t)]) := by
  intro t
  induction t with
  | nil => intro i _; simp [rowsByHourGo, marksFrom]
  | cons r t2 ih =>
    intro i hh
    cases hc : cleanupRowCond r with
    | true =>
      have hkey : pyStrip (cellAt r 7) = h0 := hh r (List.mem_cons_self r t2) hc
      simp only [rowsByHourGo, hc, if_pos, hkey, dictAppend]
      rw [rowsByHourGo_single t2 (i + 1) [i] (fun r2 hm => hh r2 (List.mem_cons_of_mem r hm))]
      simp [marksFrom, hc]
    | false =>
      simp only [rowsByHourGo, hc, Bool.false_eq_true, if_neg, not_false_iff, marksFrom]
      exact ih (i + 1) (fun r2 hm => hh r2 (List.mem_cons_of_mem r hm))

/-! ## Sheet-operation lemmas -/

theorem setHeaderRow_eq (s : Sheet) (k : Row) : setHeaderRow s k = k :: s.tail := by
  cases s <;> rfl

theorem ensureStatusColumn_of_has {s : Sheet}
    (h : (s.headD []).any (fun c => pyLower c == "status") = true) :
    ensureStatusColumn s = s := by
  unfold ensureStatusColumn
  simp only [h, if_true]

theorem ensureStatusColumn_tail (s : Sheet) : (ensureStatusColumn s).tail = s.tail := by
  unfold ensureStatusColumn
  cases h : (s.headD []).any (fun c => pyLower c == "status") with
  | true => simp only [h, if_true]
  | false =>
    simp only [h, Bool.false_eq_true, if_false]
    rw [setHeaderRow_eq]
    rfl

theorem overwriteRange_append (s : Sheet) (rows : List Row) :
    overwriteRange s (s.length + 1) rows = s ++ rows := by
  unfold overwriteRange
  have h1 : ¬ (s.length < s.length + 1 - 1) := by omega
  simp only [h1, if_neg, not_false_iff]
  have h2 : s.length + 1 - 1 = s.length := by omega
  rw [h2, List.take_length, List.drop_eq_nil_of_le (by omega), List.append_nil]

theorem patchMarked_cons_not {ps : List Nat} {i : Nat} (h : ps.contains i = false)
    (c : Nat) (v : String) (r : Row) (t : List Row) :
    patchMarked ps c v i (r :: t) = r :: patchMarked ps c v (i + 1) t := by
  simp only [patchMarked, h, Bool.false_eq_true, if_false]

theorem dropMarked_cons_not {ps : List Nat} {i : Nat} (h : ps.contains i = false)
    (r : Row) (t : List Row) :
    dropMarked ps i (r :: t) = r :: dropMarked ps (i + 1) t := by
  simp only [dropMarked, h, Bool.false_eq_true, if_false]

theorem marksFrom_two_not_one (cond : Row → Bool) (t : List Row) :
    (marksFrom cond 2 t).contains 1 = false := by
  rw [natContains, decide_eq_false_iff_not]
  intro hm
  have := marksFrom_mem_ge hm
  omega

/-- Folding the single-cell patches over a sheet equals mapping the patch over
the data rows. -/
theorem patchSheet_marks (hdr : Row) (t : List Row) (cond : Row → Bool) (c : Nat)
    (v : String) :
    (marksFrom cond 2 t).foldl (fun s2 p => setCellSheet s2 p c v) (hdr :: t) =
      hdr :: t.map (fun r => if cond r then setCellRow r c v else r) := by
  rw [patchFold (marksFrom cond 2 t) (hdr :: t)
    (fun p hp => by
      have h1 := marksFrom_mem_ge hp
      have h2 := marksFrom_mem_lt hp
      simp only [List.length_cons]
      omega)]
  rw [patchMarked_cons_not (marksFrom_two_not_one cond t)]
  rw [patchMarked_marks]

/-- Deleting the marked rows (collected from the stale snapshot t, applied to
the current rows u) keeps exactly the rows of u at unmarked positions. -/
theorem deleteSheet_marks (hdr : Row) {t u : List Row} (cond : Row → Bool)
    (hlen : t.length = u.length) :
    applyDeletes (hdr :: u) (sortDesc (marksFrom cond 2 t)) =
      hdr :: dropWhereOther cond t u := by
  have hpw := marksFrom_pairwise cond t 2
  rw [sortDesc_of_pairwise hpw]
  rw [applyDeletes_eq_dropMarked (hdr :: u)
    (List.pairwise_reverse.mpr hpw)
    (fun p hp => by
      have := marksFrom_mem_ge (List.mem_reverse.mp hp)
      omega)]
  rw [dropMarked_congr (fun x => List.mem_reverse)]
  rw [dropMarked_cons_not (marksFrom_two_not_one cond t)]
  rw [dropMarked_marks_other t u 2 hlen]

/-! ## finalize characterizations -/

theorem finalizeLiveDataForDates_eq_map (hdr : Row) (t : List Row) (dates : List String)
    {d st : Nat} (hd : findColLast hdr "date" = some d)
    (hst : findColLast hdr "status" = some st) (hne : dates ≠ []) :
    finalizeLiveDataForDates (hdr :: t) dates =
      hdr :: t.map (fun r => if finCond dates d st r then setCellRow r st "FINAL" else r) := by
  have hie : dates.isEmpty = false := by
    cases dates with
    | nil => exact absurd rfl hne
    | cons a l => rfl
  unfold finalizeLiveDataForDates
  simp only [hie, Bool.false_eq_true, if_neg, not_false_iff]
  by_cases hlen : (hdr :: t).length ≤ 1
  · have ht : t = [] := by
      simp only [List.length_cons] at hlen
      exact List.eq_nil_of_length_eq_zero (by omega)
    subst ht
    simp [hlen]
  · simp only [hlen, if_neg, not_false_iff]
    have hh : (hdr :: t).headD [] = hdr := rfl
    rw [hh, hd, hst]
    have htl : (hdr :: t).tail = t := rfl
    rw [htl]
    exact patchSheet_marks hdr t (finCond dates d st) st "FINAL"

theorem finalizePreviousDayData_eq_map (hdr : Row) (t : List Row) (today prev : String) :
    finalizePreviousDayData (hdr :: t) today prev =
      hdr :: t.map (fun r => if fpCondFull today prev r then setCellRow r 7 "FINAL" else r) := by
  unfold finalizePreviousDayData
  by_cases hlen : (hdr :: t).length ≤ 1
  · have ht : t = [] := by
      simp only [List.length_cons] at hlen
      exact List.eq_nil_of_length_eq_zero (by omega)
    subst ht
    simp [hlen]
  · simp only [hlen, if_neg, not_false_iff]
    have htl : (hdr :: t).tail = t := rfl
    rw [htl]
    exact patchSheet_marks hdr t (fpCondFull today prev) 7 "FINAL"

/-! ## cleanup characterization -/

theorem cleanup_eq_collapse (hdr : Row) (t : List Row) (h0 : String)
    (hh : ∀ r ∈ t, cleanupRowCond r = true → pyStrip (cellAt r 7) = h0) :
    cleanupHourlyDuplicates (hdr :: t) = hdr :: collapseLive cleanupRowCond t := by
  unfold cleanupHourlyDuplicates
  by_cases hlen : (hdr :: t).length ≤ 1
  · have ht : t = [] := by
      simp only [List.length_cons] at hlen
      exact List.eq_nil_of_length_eq_zero (by omega)
    subst ht
    simp [hlen, collapseLive]
  · simp only [hlen, if_neg, not_false_iff]
    have htl : (hdr :: t).tail = t := rfl
    rw [htl, rowsByHourGo_empty t 2 hh]
    cases hm : marksFrom cleanupRowCond 2 t with
    | nil =>
      have hany : t.any cleanupRowCond = false := marksFrom_eq_nil.mp hm
      rw [if_pos rfl, collapseLive_of_no_cond hany]
      rfl
    | cons q ms =>
      have hne2 : (q :: ms : List Nat) ≠ [] := by simp
      rw [if_neg hne2]
      have hpw : (q :: ms).Pairwise (· < ·) := by rw [← hm]; exact marksFrom_pairwise _ t 2
      by_cases hlen2 : 1 < (q :: ms : List Nat).length
      · have hfold : List.foldl
            (fun acc e => if 1 < e.2.length then acc ++ (sortAsc e.2).dropLast else acc)
            ([] : List Nat) [(h0, q :: ms)] = (sortAsc (q :: ms)).dropLast := by
          rw [List.foldl_cons, List.foldl_nil, if_pos hlen2, List.nil_append]
        rw [hfold, sortAsc_of_pairwise hpw]
        have hpwdl : ((q :: ms : List Nat).dropLast).Pairwise (· < ·) :=
          hpw.sublist (List.dropLast_sublist (q :: ms))
        rw [sortDesc_of_pairwise hpwdl]
        rw [applyDeletes_eq_dropMarked (hdr :: t)
          (List.pairwise_reverse.mpr hpwdl)
          (fun p hp => by
            have hpm : p ∈ (q :: ms : List Nat).dropLast := List.mem_reverse.mp hp
            have h3 : p ∈ marksFrom cleanupRowCond 2 t := by
              rw [hm]
              exact List.mem_of_mem_dropLast hpm
            have := marksFrom_mem_ge h3
            omega)]
        rw [dropMarked_congr (fun x => List.mem_reverse)]
        have hc1 : ((q :: ms : List Nat).dropLast).contains 1 = false := by
          rw [natContains, decide_eq_false_iff_not]
          intro hmem
          have h3 : 1 ∈ marksFrom cleanupRowCond 2 t := by
            rw [hm]; exact List.mem_of_mem_dropLast hmem
          have := marksFrom_mem_ge h3
          omega
        rw [dropMarked_cons_not hc1, ← hm, dropMarked_dropLast_marks]
      · have hfold : List.foldl
            (fun acc e => if 1 < e.2.length then acc ++ (sortAsc e.2).dropLast else acc)
            ([] : List Nat) [(h0, q :: ms)] = [] := by
          rw [List.foldl_cons, List.foldl_nil, if_neg hlen2]
        rw [hfold]
        have hcount : t.countP cleanupRowCond ≤ 1 := by
          have h4 := marksFrom_length cleanupRowCond t 2
          rw [hm] at h4
          simp only [List.length_cons] at hlen2 h4
          omega
        rw [collapseLive_of_count hcount]
        rfl

/-! ## write_publisher_payouts characterization -/

theorem dailyHeader_findColLast_date : findColLast dailyHeader "date" = some 0 := by decide

theorem dailyHeader_findColLast_status : findColLast dailyHeader "status" = some 5 := by decide

theorem dailyHeader_findColFirst_date : findColFirst dailyHeader "date" = some 0 := by decide

theorem dailyHeader_any_status :
    dailyHeader.any (fun c => pyLower c == "status") = true := by decide

theorem finCond_imp_delDateCond {ds : List String} {d st : Nat} {r : Row}
    (h : finCond ds d st r = true) : delDateCond ds d r = true := by
  unfold finCond at h
  unfold delDateCond
  cases hx : (decide (d < r.length) && ds.contains (pyStrip (cellAt r d))) with
  | false => rw [hx] at h; simp at h
  | true => rfl

theorem delDateCond_nil (d : Nat) (r : Row) : delDateCond [] d r = false := by
  simp [delDateCond, List.contains]

theorem overwriteRange_single (h : Row) (rows : List Row) :
    overwriteRange [h] 2 rows = h :: rows := by
  have hstep : overwriteRange [h] 2 rows =
      ([h] : Sheet).take 1 ++ rows ++ ([h] : Sheet).drop (1 + rows.length) := by
    simp [overwriteRange]
  rw [hstep]
  have hdrop : ([h] : Sheet).drop (1 + rows.length) = [] :=
    List.drop_eq_nil_of_le (by simp)
  rw [hdrop, List.append_nil]
  rfl

theorem writePublisherPayouts_false (s : Sheet) (pubs : List Pub) (hne : pubs ≠ []) :
    writePublisherPayouts s pubs false =
      dailyHeader :: (s.tail.filter (fun r => !delDateCond (datesOf pubs) 0 r))
        ++ pubs.map payoutRow := by
  obtain ⟨p0, rest, rfl⟩ : ∃ p0 rest, pubs = p0 :: rest := by
    cases pubs with
    | nil => exact absurd rfl hne
    | cons a l => exact ⟨a, l, rfl⟩
  unfold writePublisherPayouts
  have hs2 : setHeaderRow (ensureStatusColumn s) dailyHeader = dailyHeader :: s.tail := by
    rw [setHeaderRow_eq, ensureStatusColumn_tail]
  simp only [List.isEmpty_cons, Bool.false_eq_true, if_false, hs2]
  cases htail : s.tail with
  | nil =>
    rw [if_pos (by simp)]
    exact overwriteRange_single dailyHeader ((p0 :: rest).map payoutRow)
  | cons r0 t0 =>
    rw [if_neg (by simp)]
    have htl2 : (dailyHeader :: r0 :: t0).tail = r0 :: t0 := rfl
    cases hds : datesOf (p0 :: rest) with
    | nil =>
      rw [if_pos List.isEmpty_nil, overwriteRange_append]
      have hfil : (r0 :: t0).filter (fun r => !delDateCond [] 0 r) = r0 :: t0 := by
        apply List.filter_eq_self.mpr
        intro a _
        rw [delDateCond_nil]
        rfl
      rw [hfil]
    | cons d0 dtl =>
      rw [if_neg (by simp)]
      rw [finalizeLiveDataForDates_eq_map dailyHeader (r0 :: t0) (d0 :: dtl)
        dailyHeader_findColLast_date dailyHeader_findColLast_status (by simp)]
      have hhd : ((dailyHeader : Row) :: r0 :: t0).headD [] = dailyHeader := rfl
      rw [hhd, dailyHeader_findColFirst_date]
      dsimp only
      rw [htl2]
      have hdel := @deleteSheet_marks dailyHeader (r0 :: t0)
        ((r0 :: t0).map (fun r =>
          if finCond (d0 :: dtl) 0 5 r then setCellRow r 5 "FINAL" else r))
        (delDateCond (d0 :: dtl) 0) (by simp)
      rw [hdel]
      rw [dropWhereOther_map_id (fun r hr => by
        rw [if_neg]
        intro hfc
        rw [finCond_imp_delDateCond hfc] at hr
        exact Bool.true_eq_false.mp hr)]
      rw [overwriteRange_append]

/-! ## datesOf and payoutRow facts -/

theorem datesStep_mem {acc : List String} {p : Pub} {D : String}
    (hd : p.date = some D) (hDs : pyStrip D = D) (hmem : acc.contains D = true) :
    datesStep acc p = acc := by
  unfold datesStep
  rw [hd]
  simp only [Option.getD_some, hDs, hmem, Bool.not_true, Bool.and_false, Bool.false_eq_true,
    if_false]

theorem datesStep_nil {p : Pub} {D : String} (hd : p.date = some D) (hDs : pyStrip D = D)
    (hD0 : D ≠ "") : datesStep [] p = [D] := by
  unfold datesStep
  rw [hd]
  have hne : (D == "") = false := by
    rw [beq_eq_false_iff_ne]
    exact hD0
  simp only [Option.getD_some, hDs, hne, Bool.not_false, Bool.true_and]
  rw [if_pos]
  · rfl
  · rfl

theorem datesOf_fold_const {D : String} (hDs : pyStrip D = D) :
    ∀ rest : List Pub, (∀ p ∈ rest, p.date = some D) →
      rest.foldl datesStep [D] = [D] := by
  intro rest h
  induction rest with
  | nil => rfl
  | cons p rest2 ih =>
    rw [List.foldl_cons, datesStep_mem (h p (List.mem_cons_self p rest2)) hDs (by simp)]
    exact ih (fun q hq => h q (List.mem_cons_of_mem p hq))

theorem datesOf_const {pubs : List Pub} {D : String} (hne : pubs ≠ [])
    (hdate : ∀ p ∈ pubs, p.date = some D) (hDs : pyStrip D = D) (hD0 : D ≠ "") :
    datesOf pubs = [D] := by
  obtain ⟨p0, rest, rfl⟩ : ∃ p0 rest, pubs = p0 :: rest := by
    cases pubs with
    | nil => exact absurd rfl hne
    | cons a l => exact ⟨a, l, rfl⟩
  unfold datesOf
  rw [List.foldl_cons, datesStep_nil (hdate p0 (List.mem_cons_self p0 rest)) hDs hD0]
  exact datesOf_fold_const hDs rest (fun q hq => hdate q (List.mem_cons_of_mem p0 hq))

theorem payoutRow_length (p : Pub) : (payoutRow p).length = 6 := rfl

theorem payoutRow_cell0 (p : Pub) : cellAt (payoutRow p) 0 = p.date.getD "" := rfl

theorem payoutRow_cell1 (p : Pub) : cellAt (payoutRow p) 1 = p.publisher.getD "" := rfl

theorem payoutRow_cell2 (p : Pub) : cellAt (payoutRow p) 2 = p.campaign.getD "" := rfl

theorem payoutRow_cell5 (p : Pub) : cellAt (payoutRow p) 5 = "FINAL" := rfl

/-! ## Column lookup lemmas -/

theorem findColLastFrom_some_any {name : String} :
    ∀ (l : List String) (i j : Nat), findColLastFrom name i l = some j →
      l.any (fun c => pyLower c == name) = true := by
  intro l
  induction l with
  | nil => intro i j h; simp [findColLastFrom] at h
  | cons c t ih =>
    intro i j h
    rw [List.any_cons]
    cases hrec : findColLastFrom name (i + 1) t with
    | some j2 => rw [ih (i + 1) j2 hrec]; simp
    | none =>
      rw [findColLastFrom, hrec] at h
      by_cases hc : (pyLower c == name) = true
      · rw [hc]; simp
      · rw [if_neg hc] at h
        exact absurd h (by simp)

/-! ## Dict lemmas for the cumulative hourly aggregation -/

theorem dictLookup_nil (k : String × String × String) : dictLookup [] k = none := rfl

theorem dictLookup_isSome_any (k : String × String × String) :
    ∀ d : HourDict, (dictLookup d k).isSome = d.any (fun e => e.1 == k) := by
  intro d
  induction d with
  | nil => rfl
  | cons e rest ih =>
    rw [List.any_cons]
    unfold dictLookup
    cases he : (e.1 == k) with
    | true => simp [List.find?_cons, he]
    | false =>
      simp only [List.find?_cons, he, Bool.false_or]
      exact ih

theorem dictLookup_cons_pos {e : (String × String × String) × Totals} {rest : HourDict}
    {k : String × String × String} (h : (e.1 == k) = true) :
    dictLookup (e :: rest) k = some e.2 := by
  unfold dictLookup
  rw [@List.find?_cons_of_pos _ (fun x => x.1 == k) e rest (by simpa using h)]
  rfl

theorem dictLookup_cons_neg {e : (String × String × String) × Totals} {rest : HourDict}
    {k : String × String × String} (h : (e.1 == k) = false) :
    dictLookup (e :: rest) k = dictLookup rest k := by
  unfold dictLookup
  rw [@List.find?_cons_of_neg _ (fun x => x.1 == k) e rest (by simp [h])]

theorem dictLookup_map_ne {K k : String × String × String} {p : Pub} (hk : K ≠ k) :
    ∀ d : HourDict,
      dictLookup (d.map (fun e => if e.1 == K then (e.1, addTotals e.2 p) else e)) k =
        dictLookup d k := by
  intro d
  induction d with
  | nil => rfl
  | cons e rest ih =>
    rw [List.map_cons]
    have hfst : (if e.1 == K then (e.1, addTotals e.2 p) else e).1 = e.1 := by
      by_cases hx : (e.1 == K) = true
      · rw [if_pos hx]
      · rw [if_neg hx]
    cases hek : (e.1 == k) with
    | true =>
      have hKe : (e.1 == K) = false := by
        rw [beq_eq_false_iff_ne]
        intro hcontr
        exact hk (hcontr ▸ beq_iff_eq.mp hek)
      rw [dictLookup_cons_pos (by rw [hfst]; exact hek), dictLookup_cons_pos hek]
      rw [if_neg (by rw [hKe]; exact Bool.false_ne_true)]
    | false =>
      rw [dictLookup_cons_neg (by rw [hfst]; exact hek), dictLookup_cons_neg hek]
      exact ih

theorem dictLookup_map_found {K : String × String × String} {p : Pub} :
    ∀ d : HourDict, ∀ tot : Totals, dictLookup d K = some tot →
      dictLookup (d.map (fun e => if e.1 == K then (e.1, addTotals e.2 p) else e)) K =
        some (addTotals tot p) := by
  intro d
  induction d with
  | nil => intro tot h; simp [dictLookup] at h
  | cons e rest ih =>
    intro tot h
    rw [List.map_cons]
    have hfst : (if e.1 == K then (e.1, addTotals e.2 p) else e).1 = e.1 := by
      by_cases hx : (e.1 == K) = true
      · rw [if_pos hx]
      · rw [if_neg hx]
    cases hek : (e.1 == K) with
    | true =>
      rw [dictLookup_cons_pos hek] at h
      have he2 : e.2 = tot := by simpa using h
      rw [dictLookup_cons_pos (by rw [if_pos (rfl : true = true)]; exact hek)]
      rw [if_pos (rfl : true = true), he2]
    | false =>
      rw [dictLookup_cons_neg hek] at h
      rw [dictLookup_cons_neg (by rw [if_neg (by simp : ¬ false = true)]; exact hek)]
      exact ih tot h

theorem dictLookup_append_ne {K k : String × String × String} {v : Totals} (hk : K ≠ k) :
    ∀ d : HourDict, dictLookup (d ++ [(K, v)]) k = dictLookup d k := by
  intro d
  induction d with
  | nil =>
    have hKk : (K == k) = false := by rw [beq_eq_false_iff_ne]; exact hk
    rw [List.nil_append]
    rw [dictLookup_cons_neg hKk]
  | cons e rest ih =>
    rw [List.cons_append]
    cases hek : (e.1 == k) with
    | true => rw [dictLookup_cons_pos hek, dictLookup_cons_pos hek]
    | false => rw [dictLookup_cons_neg hek, dictLookup_cons_neg hek]; exact ih

theorem dictLookup_append_self {k : String × String × String} {v : Totals} :
    ∀ d : HourDict, dictLookup d k = none → dictLookup (d ++ [(k, v)]) k = some v := by
  intro d
  induction d with
  | nil =>
    intro _
    rw [List.nil_append, dictLookup_cons_pos (by simp)]
  | cons e rest ih =>
    intro h
    rw [List.cons_append]
    cases hek : (e.1 == k) with
    | true => rw [dictLookup_cons_pos hek] at h; simp at h
    | false =>
      rw [dictLookup_cons_neg hek] at h
      rw [dictLookup_cons_neg hek]
      exact ih h

theorem dictLookup_mergePub_ne {d : HourDict} {p : Pub} {k : String × String × String}
    (hk : keyOf3 p ≠ k) : dictLookup (mergePub d p) k = dictLookup d k := by
  unfold mergePub
  by_cases hin : d.any (fun e => e.1 == keyOf3 p) = true
  · rw [if_pos hin]
    exact dictLookup_map_ne hk d
  · rw [if_neg hin]
    exact dictLookup_append_ne hk d

theorem dictLookup_mergePub_found {d : HourDict} {p : Pub} {k : String × String × String}
    {tot : Totals} (h : dictLookup d k = some tot) (hk : keyOf3 p = k) :
    dictLookup (mergePub d p) k = some (addTotals tot p) := by
  unfold mergePub
  subst hk
  have hin : d.any (fun e => e.1 == keyOf3 p) = true := by
    rw [← dictLookup_isSome_any, h]
    rfl
  rw [if_pos hin]
  exact dictLookup_map_found d tot h

theorem dictLookup_mergePub_absent {d : HourDict} {p : Pub} {k : String × String × String}
    (h : dictLookup d k = none) (hk : keyOf3 p = k) :
    dictLookup (mergePub d p) k = some (totalsOf p) := by
  unfold mergePub
  subst hk
  have hin : d.any (fun e => e.1 == keyOf3 p) = false := by
    rw [← dictLookup_isSome_any, h]
    rfl
  rw [if_neg (by rw [hin]; exact Bool.false_ne_true)]
  exact dictLookup_append_self d h

theorem totalsOf_eq (p : Pub) : totalsOf p = addTotals zeroTotals p := by
  simp [totalsOf, addTotals, zeroTotals]

theorem accumHour_lookup_zero {k : String × String × String} :
    ∀ (ps : List Pub) (d : HourDict) (tot : Totals),
      dictLookup d k = some tot →
      (∀ p ∈ ps, keyOf3 p = k →
        p.payout.getD 0 = 0 ∧ p.completedCalls.getD 0 = 0 ∧ p.paidCalls.getD 0 = 0) →
      dictLookup (accumHour d ps) k = some tot := by
  intro ps
  induction ps with
  | nil => intro d tot h _; exact h
  | cons p rest ih =>
    intro d tot h hz
    have hstep : accumHour d (p :: rest) = accumHour (mergePub d p) rest := rfl
    rw [hstep]
    by_cases hk : keyOf3 p = k
    · have hzp := hz p (List.mem_cons_self p rest) hk
      have hupd := dictLookup_mergePub_found h hk
      have haz : addTotals tot p = tot := by
        unfold addTotals
        cases tot with
        | mk a b c => simp [hzp.1, hzp.2.1, hzp.2.2]
      rw [haz] at hupd
      exact ih _ tot hupd (fun q hq => hz q (List.mem_cons_of_mem p hq))
    · have hkeep : dictLookup (mergePub d p) k = some tot := by
        rw [dictLookup_mergePub_ne hk]
        exact h
      exact ih _ tot hkeep (fun q hq => hz q (List.mem_cons_of_mem p hq))

theorem accumHour_lookup_sum {k : String × String × String} :
    ∀ (ps : List Pub) (d : HourDict) (tot : Totals),
      dictLookup d k = some tot →
      dictLookup (accumHour d ps) k =
        some ((ps.filter (fun p => keyOf3 p == k)).foldl addTotals tot) := by
  intro ps
  induction ps with
  | nil => intro d tot h; exact h
  | cons p rest ih =>
    intro d tot h
    have hstep : accumHour d (p :: rest) = accumHour (mergePub d p) rest := rfl
    rw [hstep]
    cases hk : (keyOf3 p == k) with
    | true =>
      have hkk : keyOf3 p = k := beq_iff_eq.mp hk
      have hupd := dictLookup_mergePub_found h hkk
      rw [List.filter_cons, hk]
      simp only [if_pos, List.foldl_cons]
      exact ih _ (addTotals tot p) hupd
    | false =>
      have hkk : keyOf3 p ≠ k := by rw [← beq_eq_false_iff_ne]; exact hk
      have hkeep : dictLookup (mergePub d p) k = some tot := by
        rw [dictLookup_mergePub_ne hkk]
        exact h
      rw [List.filter_cons, hk]
      simp only [Bool.false_eq_true, if_neg, not_false_iff]
      exact ih _ tot hkeep

theorem accumHour_lookup_from_none {k : String × String × String} :
    ∀ (ps : List Pub) (d : HourDict),
      dictLookup d k = none →
      ps.filter (fun p => keyOf3 p == k) ≠ [] →
      dictLookup (accumHour d ps) k =
        some ((ps.filter (fun p => keyOf3 p == k)).foldl addTotals zeroTotals) := by
  intro ps
  induction ps with
  | nil => intro d _ hne; exact absurd rfl hne
  | cons p rest ih =>
    intro d h hne
    have hstep : accumHour d (p :: rest) = accumHour (mergePub d p) rest := rfl
    rw [hstep]
    cases hk : (keyOf3 p == k) with
    | true =>
      have hkk : keyOf3 p = k := beq_iff_eq.mp hk
      have hins := dictLookup_mergePub_absent h hkk
      rw [totalsOf_eq] at hins
      rw [List.filter_cons, hk]
      simp only [if_pos, List.foldl_cons]
      exact accumHour_lookup_sum rest _ (addTotals zeroTotals p) hins
    | false =>
      have hkk : keyOf3 p ≠ k := by rw [← beq_eq_false_iff_ne]; exact hk
      have hkeep : dictLookup (mergePub d p) k = none := by
        rw [dictLookup_mergePub_ne hkk]
        exact h
      rw [List.filter_cons, hk] at hne ⊢
      simp only [Bool.false_eq_true, if_neg, not_false_iff] at hne ⊢
      exact ih _ hkeep hne

theorem rangeConcat (s n : Nat) : List.range' s (n + 1) = List.range' s n ++ [s + n] := by
  induction n generalizing s with
  | zero => simp [List.range']
  | succ k ih =>
    rw [List.range'_succ, ih (s + 1), List.range'_succ]
    simp [List.cons_append]
    omega

theorem cumulativeDict_succ (f : Nat → Except String (List Pub)) {H : Nat} (h9 : 9 ≤ H) :
    cumulativeDict f (H + 1) =
      match f (H + 1) with
      | Except.ok ps => accumHour (cumulativeDict f H) ps
      | Except.error _ => cumulativeDict f H := by
  unfold cumulativeDict
  have h1 : H + 1 + 1 - 9 = (H + 1 - 9) + 1 := by omega
  rw [h1, rangeConcat, List.foldl_append]
  have h2 : 9 + (H + 1 - 9) = H + 1 := by omega
  rw [h2]
  simp only [List.foldl_cons, List.foldl_nil]

/-! ## Error-flow lemmas -/

theorem catchAll_ok (x : Except String Unit) : catchAll x = Except.ok () := by
  cases x <;> rfl

/-! ## Cell access lemmas -/

theorem getD_lt {t : List Row} {j : Nat} (hj : j < t.length) : t.getD j [] = t[j] := by
  rw [List.getD_eq_getElem?_getD, List.getElem?_eq_getElem hj]
  rfl

theorem getD_map_lt {g : Row → Row} {t : List Row} {j : Nat} (hj : j < t.length) :
    (t.map g).getD j [] = g (t.getD j []) := by
  rw [getD_lt (by simpa using hj), getD_lt hj]
  simp

theorem setCellRow_of_lt {r : Row} {c : Nat} (h : c < r.length) (v : String) :
    setCellRow r c v = r.set c v := by
  unfold setCellRow
  have hz : c + 1 - r.length = 0 := by omega
  rw [hz, List.replicate_zero, List.append_nil]

theorem cellAt_set_ne {r : Row} {i c : Nat} (h : c ≠ i) (v : String) :
    cellAt (r.set i v) c = cellAt r c := by
  unfold cellAt
  rw [List.getD_eq_getElem?_getD, List.getD_eq_getElem?_getD,
    List.getElem?_set_ne (Ne.symm h)]

theorem cellAt_set_self {r : Row} {i : Nat} (h : i < r.length) (v : String) :
    cellAt (r.set i v) i = v := by
  unfold cellAt
  rw [List.getD_eq_getElem?_getD]
  simp [List.getElem?_set_self, h]

/-! ## Condition-extraction lemmas -/

theorem finCond_parts {ds : List String} {d st : Nat} {r : Row}
    (h : finCond ds d st r = true) :
    st < r.length ∧ normStatus (cellAt r st) = "LIVE" := by
  unfold finCond at h
  constructor
  · cases hx : (decide (st < r.length)) with
    | false => rw [hx] at h; simp at h
    | true => exact of_decide_eq_true hx
  · cases hx : (normStatus (cellAt r st) == "LIVE") with
    | false => rw [hx] at h; simp at h
    | true => exact beq_iff_eq.mp hx

theorem fpCondFull_parts {today prev : String} {r : Row}
    (h : fpCondFull today prev r = true) :
    7 < r.length ∧ normStatus (cellAt r 7) = "LIVE" := by
  unfold fpCondFull at h
  constructor
  · cases hx : (decide (7 < r.length)) with
    | false => rw [hx] at h; simp at h
    | true => exact of_decide_eq_true hx
  · cases hx : (normStatus (cellAt r 7) == "LIVE") with
    | false => rw [hx] at h; simp at h
    | true => exact beq_iff_eq.mp hx

theorem fpCondFull_eq_fpEligible {today prev : String} (h : today ≠ prev) (r : Row) :
    fpCondFull today prev r = fpEligible prev r := by
  unfold fpCondFull fpEligible
  cases hp : (pyStrip (cellAt r 0) == prev) with
  | true =>
    have ht : (pyStrip (cellAt r 0) == today) = false := by
      rw [beq_eq_false_iff_ne, beq_iff_eq.mp hp]
      exact fun hcontr => h hcontr.symm
    rw [ht]
    simp
  | false =>
    simp

theorem fpEligible_false_of_today {today prev : String} (h : today ≠ prev) {r : Row}
    (hr : pyStrip (cellAt r 0) = today) : fpEligible prev r = false := by
  unfold fpEligible
  have hp : (pyStrip (cellAt r 0) == prev) = false := by
    rw [beq_eq_false_iff_ne, hr]
    exact h
  rw [hp, Bool.and_false]

/-! ## statusOnlyPatch lemmas -/

theorem statusOnlyPatch_refl (s : Sheet) (st : Nat) : statusOnlyPatch s s st :=
  ⟨rfl, fun _ _ => ⟨rfl, fun _ _ => rfl, Or.inl rfl⟩⟩

theorem statusOnlyPatch_map {cond : Row → Bool} {st : Nat} (hdr : Row) (t : List Row)
    (hcond : ∀ r, cond r = true → st < r.length ∧ normStatus (cellAt r st) = "LIVE") :
    statusOnlyPatch (hdr :: t)
      (hdr :: t.map (fun r => if cond r then setCellRow r st "FINAL" else r)) st := by
  constructor
  · simp
  · intro i hi
    cases i with
    | zero => exact ⟨rfl, fun _ _ => rfl, Or.inl rfl⟩
    | succ j =>
      have hj : j < t.length := by
        simp only [List.length_cons] at hi
        omega
      have hrow : ((hdr :: t.map (fun r => if cond r then setCellRow r st "FINAL" else r))
            : Sheet).getD (j + 1) [] =
          (fun r => if cond r then setCellRow r st "FINAL" else r) (t.getD j []) := by
        have h1 : ((hdr :: t.map (fun r => if cond r then setCellRow r st "FINAL" else r))
              : Sheet).getD (j + 1) [] =
            (t.map (fun r => if cond r then setCellRow r st "FINAL" else r)).getD j [] := rfl
        rw [h1, getD_map_lt hj]
      have hrow2 : ((hdr :: t) : Sheet).getD (j + 1) [] = t.getD j [] := rfl
      rw [hrow, hrow2]
      dsimp only
      cases hc : cond (t.getD j []) with
      | false =>
        rw [if_neg Bool.false_ne_true]
        exact ⟨rfl, fun _ _ => rfl, Or.inl rfl⟩
      | true =>
        obtain ⟨hlt, hlive⟩ := hcond _ hc
        rw [if_pos (rfl : true = true), setCellRow_of_lt hlt]
        refine ⟨by simp, fun c hcne => cellAt_set_ne hcne _, Or.inr ⟨hlive, cellAt_set_self hlt _⟩⟩

/-! ## Entry-point result lemmas -/

theorem runHourlyReport_fst_ok (ch ph : Nat) (fetch : Except String (List Pub))
    (fh : Nat → Except String (List Pub)) (d : String) (s : Sheet) :
    (runHourlyReport ch ph fetch fh d s).1 = Except.ok () := by
  unfold runHourlyReport
  by_cases h1 : (decide (ch < 9) || decide (21 < ch)) = true
  · rw [if_pos h1]
  · rw [if_neg h1]
    by_cases h2 : (decide (ph < 9) || decide (21 ≤ ph)) = true
    · rw [if_pos h2]
    · rw [if_neg h2]
      cases fetch with
      | error e => rfl
      | ok pubs =>
        dsimp only
        by_cases h3 : pubs.isEmpty = true
        · rw [if_pos h3]
        · rw [if_neg h3]
          rfl

theorem runHourlyReport_snd_eq (ch ph : Nat) (fetch : Except String (List Pub))
    (fh : Nat → Except String (List Pub)) (d : String) (s : Sheet) :
    (runHourlyReport ch ph fetch fh d s).2 = s := by
  unfold runHourlyReport
  by_cases h1 : (decide (ch < 9) || decide (21 < ch)) = true
  · rw [if_pos h1]
  · rw [if_neg h1]
    by_cases h2 : (decide (ph < 9) || decide (21 ≤ ph)) = true
    · rw [if_pos h2]
    · rw [if_neg h2]
      cases fetch with
      | error e => rfl
      | ok pubs =>
        dsimp only
        by_cases h3 : pubs.isEmpty = true
        · rw [if_pos h3]
        · rw [if_neg h3]
          rfl

/-! ## Claim theorems -/

/-- C7: One run of finalize_previous_day_data patches to FINAL exactly those rows
whose status (hard-coded column H, index 7) is LIVE and whose date equals the
previous day, and the patch function leaves every row dated the current day
unchanged, even if its status is LIVE. -/
theorem finalize_previous_day_exact (hdr : Row) (t : List Row) (today prev : String)
    (hne : today ≠ prev) :
    finalizePreviousDayData (hdr :: t) today prev =
      hdr :: t.map (fun r => if fpEligible prev r then setCellRow r 7 "FINAL" else r) ∧
    ∀ r ∈ t, pyStrip (cellAt r 0) = today →
      (if fpEligible prev r then setCellRow r 7 "FINAL" else r) = r := by
  constructor
  · rw [finalizePreviousDayData_eq_map]
    congr 1
    exact List.map_congr_left (fun r _ => by rw [fpCondFull_eq_fpEligible hne r])
  · intro r _ hr
    rw [if_neg (by rw [fpEligible_false_of_today hne hr]; exact Bool.false_ne_true)]

/-- Witness for finalize_previous_day_exact on a concrete sheet holding one LIVE
row of the previous day and one LIVE row dated today. -/
theorem finalize_previous_day_exact_witness :
    ("2026-01-05" : String) ≠ "2026-01-04" ∧
    finalizePreviousDayData
        [["Date"], ["2026-01-04", "", "", "", "", "", "", "LIVE"],
          ["2026-01-05", "", "", "", "", "", "", "LIVE"]] "2026-01-05" "2026-01-04" =
      ["Date"] :: [["2026-01-04", "", "", "", "", "", "", "LIVE"],
          ["2026-01-05", "", "", "", "", "", "", "LIVE"]].map
        (fun r => if fpEligible "2026-01-04" r then setCellRow r 7 "FINAL" else r) :=
  ⟨by decide,
    (finalize_previous_day_exact ["Date"]
      [["2026-01-04", "", "", "", "", "", "", "LIVE"],
        ["2026-01-05", "", "", "", "", "", "", "LIVE"]]
      "2026-01-05" "2026-01-04" (by decide)).1⟩

/-- C8: Both finalization operations perform LIVE-to-FINAL transitions as
single-cell patches of the status cell only: the sheet keeps its number of rows,
every row keeps its length, every cell other than the status cell keeps its
value, and a changed status cell was LIVE and becomes FINAL. -/
theorem finalization_patches_status_cell_only :
    (∀ (s : Sheet) (today prev : String),
        statusOnlyPatch s (finalizePreviousDayData s today prev) 7) ∧
    (∀ (s : Sheet) (dates : List String) (st : Nat),
        findColLast (s.headD []) "status" = some st →
        statusOnlyPatch s (finalizeLiveDataForDates s dates) st) := by
  constructor
  · intro s today prev
    cases s with
    | nil =>
      have h : finalizePreviousDayData [] today prev = [] := rfl
      rw [h]
      exact statusOnlyPatch_refl [] 7
    | cons hdr t =>
      rw [finalizePreviousDayData_eq_map]
      exact statusOnlyPatch_map hdr t (fun r hr => fpCondFull_parts hr)
  · intro s dates st hst
    cases s with
    | nil =>
      have h : finalizeLiveDataForDates [] dates = [] := by
        unfold finalizeLiveDataForDates
        by_cases hd : dates.isEmpty = true
        · rw [if_pos hd]
        · rw [if_neg hd, if_pos (by simp)]
      rw [h]
      exact statusOnlyPatch_refl [] st
    | cons hdr t =>
      cases hdates : dates with
      | nil =>
        have h : finalizeLiveDataForDates (hdr :: t) [] = hdr :: t := by
          unfold finalizeLiveDataForDates
          rw [if_pos List.isEmpty_nil]
        rw [h]
        exact statusOnlyPatch_refl _ st
      | cons d0 dtl =>
        cases hdc : findColLast (((hdr :: t) : Sheet).headD []) "date" with
        | none =>
          have h : finalizeLiveDataForDates (hdr :: t) (d0 :: dtl) = hdr :: t := by
            unfold finalizeLiveDataForDates
            rw [if_neg (by simp)]
            by_cases hl : ((hdr :: t : Sheet).length ≤ 1)
            · rw [if_pos hl]
            · rw [if_neg hl, hdc, hst]
          rw [h]
          exact statusOnlyPatch_refl _ st
        | some d =>
          rw [finalizeLiveDataForDates_eq_map hdr t (d0 :: dtl) hdc hst (by simp)]
          exact statusOnlyPatch_map hdr t (fun r hr => finCond_parts hr)

/-- Witness for finalization_patches_status_cell_only: the second conjunct at a
concrete sheet whose header resolves the status column to index 1. -/
theorem finalization_patches_status_cell_only_witness :
    findColLast (([["Date", "Status"], ["2026-01-04", "LIVE"]] : Sheet).headD [])
        "status" = some 1 ∧
    statusOnlyPatch [["Date", "Status"], ["2026-01-04", "LIVE"]]
      (finalizeLiveDataForDates [["Date", "Status"], ["2026-01-04", "LIVE"]]
        ["2026-01-04"]) 1 :=
  ⟨by decide,
    finalization_patches_status_cell_only.2 [["Date", "Status"], ["2026-01-04", "LIVE"]]
      ["2026-01-04"] 1 (by decide)⟩

/-- C9: The three scheduled entry points wrap their whole bodies in
try/except, so whatever the oracles (fetch results, store call results) do,
each entry point returns normally and never propagates an error. -/
theorem scheduled_entry_points_never_raise :
    (∀ (fetches : List (Except String (List Pub))) (writeRes : Except String Unit),
        runEndOfDayReportE fetches writeRes = Except.ok ()) ∧
    (∀ (ch ph : Nat) (fetch : Except String (List Pub))
        (fh : Nat → Except String (List Pub)) (d : String) (s : Sheet),
        (runHourlyReport ch ph fetch fh d s).1 = Except.ok ()) ∧
    (∀ (getAll : Except String Sheet) (updateCell : Nat → Except String Unit)
        (today prev : String),
        finalizePreviousDayDataE getAll updateCell today prev = Except.ok ()) :=
  ⟨fun _ _ => catchAll_ok _,
    fun ch ph fetch fh d s => runHourlyReport_fst_ok ch ph fetch fh d s,
    fun _ _ _ _ => catchAll_ok _⟩

/-- C10: With the hourly window guards satisfied and a non-empty fetch, the
hourly write step is a call to a method GoogleSheetsClient does not define, so
it fails; the error is caught and the run returns normally with the hourly
sheet completely unchanged. -/
theorem hourly_write_missing_method (ch ph : Nat)
    (fh : Nat → Except String (List Pub)) (d : String) (s : Sheet) (pubs : List Pub)
    (h1 : 9 ≤ ch) (h2 : ch ≤ 21) (h3 : 9 ≤ ph) (h4 : ph < 21) (hne : pubs ≠ []) :
    (∃ msg, writeHourlyPublisherPayouts s (getCumulativeHourlyData fh d ph "LIVE") =
        Except.error msg) ∧
    runHourlyReport ch ph (Except.ok pubs) fh d s = (Except.ok (), s) := by
  constructor
  · exact ⟨_, rfl⟩
  · unfold runHourlyReport
    rw [if_neg (by simp only [Bool.or_eq_true, decide_eq_true_eq]; omega)]
    rw [if_neg (by simp only [Bool.or_eq_true, decide_eq_true_eq]; omega)]
    dsimp only
    rw [if_neg (by
      cases pubs with
      | nil => exact absurd rfl hne
      | cons a l => simp)]
    rfl

/-- Witness for hourly_write_missing_method at a concrete in-window run. -/
theorem hourly_write_missing_method_witness :
    ((9 : Nat) ≤ 10 ∧ (10 : Nat) ≤ 21 ∧ (9 : Nat) ≤ 9 ∧ (9 : Nat) < 21 ∧
      ([({ publisher := some "P" } : Pub)] : List Pub) ≠ []) ∧
    ((∃ msg, writeHourlyPublisherPayouts []
        (getCumulativeHourlyData (fun _ => Except.ok []) "2026-01-05" 9 "LIVE") =
          Except.error msg) ∧
      runHourlyReport 10 9 (Except.ok [({ publisher := some "P" } : Pub)])
        (fun _ => Except.ok []) "2026-01-05" [] = (Except.ok (), [])) :=
  ⟨⟨by decide, by decide, by decide, by decide, by decide⟩,
    hourly_write_missing_method 10 9 (fun _ => Except.ok []) "2026-01-05" []
      [({ publisher := some "P" } : Pub)]
      (by decide) (by decide) (by decide) (by decide) (by decide)⟩

/-- C1: If any data row carries the target date with status FINAL (per the
header's date and status columns), write_today_hourly_payouts returns without
deleting, appending or modifying anything: the sheet is unchanged. -/
theorem write_today_hourly_skips_when_finalized (s : Sheet) (pubs : List Pub)
    (D : String) (d st : Nat) (r : Row)
    (hd : findColLast (s.headD []) "date" = some d)
    (hst : findColLast (s.headD []) "status" = some st)
    (hr : r ∈ s.tail) (hld : d < r.length) (hls : st < r.length)
    (hdate : pyStrip (cellAt r d) = D) (hfin : normStatus (cellAt r st) = "FINAL") :
    writeTodayHourlyPayouts s pubs D = s := by
  unfold writeTodayHourlyPayouts
  dsimp only
  by_cases hp : pubs.isEmpty = true
  · rw [if_pos hp]
  · rw [if_neg hp]
    have hens : ensureStatusColumn s = s :=
      ensureStatusColumn_of_has (findColLastFrom_some_any (s.headD []) 0 st hst)
    rw [hens]
    have htne : s.tail ≠ [] := List.ne_nil_of_mem hr
    have hfinal : hasFinalizedDataForDate s D = true := by
      unfold hasFinalizedDataForDate
      have hlen : ¬ (s.length ≤ 1) := by
        cases s with
        | nil => exact absurd rfl htne
        | cons h0 t0 =>
          have h1 : (t0 : List Row) ≠ [] := htne
          have h2 : 0 < t0.length := List.length_pos.mpr h1
          simp only [List.length_cons]
          omega
      rw [if_neg hlen, hd, hst]
      have hb : (decide (d < r.length) && (pyStrip (cellAt r d) == D) &&
          decide (st < r.length) && (normStatus (cellAt r st) == "FINAL")) = true := by
        rw [decide_eq_true hld, decide_eq_true hls, hdate, hfin]
        simp
      exact List.any_eq_true.mpr ⟨r, hr, hb⟩
    rw [if_pos hfinal]

/-- Witness for write_today_hourly_skips_when_finalized on a concrete sheet with
one FINAL row for the target date. -/
theorem write_today_hourly_skips_when_finalized_witness :
    (findColLast (([["Date", "Status"], ["2026-01-05", "FINAL"]] : Sheet).headD [])
        "date" = some 0 ∧
      (["2026-01-05", "FINAL"] : Row) ∈
        ([["Date", "Status"], ["2026-01-05", "FINAL"]] : Sheet).tail ∧
      normStatus (cellAt ["2026-01-05", "FINAL"] 1) = "FINAL") ∧
    writeTodayHourlyPayouts [["Date", "Status"], ["2026-01-05", "FINAL"]]
        [({ publisher := some "P", payout := some 5 } : Pub)] "2026-01-05" =
      [["Date", "Status"], ["2026-01-05", "FINAL"]] :=
  ⟨⟨by decide, by decide, by decide⟩,
    write_today_hourly_skips_when_finalized
      [["Date", "Status"], ["2026-01-05", "FINAL"]]
      [({ publisher := some "P", payout := some 5 } : Pub)]
      "2026-01-05" 0 1 ["2026-01-05", "FINAL"]
      (by decide) (by decide) (by decide) (by decide) (by decide) (by decide) (by decide)⟩

theorem cleanupRowCond_parts {r : Row} (h : cleanupRowCond r = true) :
    7 < r.length ∧ normStatus (cellAt r 6) ≠ "FINAL" ∧ pyStrip (cellAt r 7) ≠ "" := by
  unfold cleanupRowCond at h
  refine ⟨?_, ?_, ?_⟩
  · cases hx : decide (7 < r.length) with
    | false => rw [hx] at h; simp at h
    | true => exact of_decide_eq_true hx
  · cases hx : (normStatus (cellAt r 6) == "FINAL") with
    | true => rw [hx] at h; simp at h
    | false => exact beq_eq_false_iff_ne.mp hx
  · cases hx : (pyStrip (cellAt r 7) == "") with
    | true => rw [hx] at h; simp at h
    | false => exact beq_eq_false_iff_ne.mp hx

theorem cleanupRowCond_of_live {r : Row} (hlen : 7 < r.length)
    (hlive : normStatus (cellAt r 6) = "LIVE") (hhour : pyStrip (cellAt r 7) ≠ "") :
    cleanupRowCond r = true := by
  unfold cleanupRowCond
  rw [decide_eq_true hlen, hlive]
  have h1 : (("LIVE" : String) == "FINAL") = false := by decide
  have h2 : (pyStrip (cellAt r 7) == "") = false := beq_eq_false_iff_ne.mpr hhour
  rw [h1, h2]
  rfl

/-- C2: On an hourly sheet whose data rows are LIVE rows sharing one hour bucket
plus FINAL rows (status at column index 6, hour at index 7, as
cleanup_hourly_duplicates addresses them), one cleanup run deletes all but the
last-positioned LIVE row and leaves every FINAL row present and unchanged. -/
theorem cleanup_keeps_last_live_spares_final (hdr : Row) (t : List Row) (h0 : String)
    (hh0 : h0 ≠ "")
    (hw : ∀ r ∈ t, 7 < r.length ∧
      (normStatus (cellAt r 6) = "LIVE" ∨ normStatus (cellAt r 6) = "FINAL") ∧
      (normStatus (cellAt r 6) = "LIVE" → pyStrip (cellAt r 7) = h0)) :
    cleanupHourlyDuplicates (hdr :: t) = hdr :: collapseLive cleanupRowCond t ∧
    (collapseLive cleanupRowCond t).filter (fun r => normStatus (cellAt r 6) == "FINAL") =
      t.filter (fun r => normStatus (cellAt r 6) == "FINAL") ∧
    (collapseLive cleanupRowCond t).filter (fun r => normStatus (cellAt r 6) == "LIVE") =
      lastSingleton (t.filter (fun r => normStatus (cellAt r 6) == "LIVE")) := by
  have hcl : ∀ r ∈ t, cleanupRowCond r = (normStatus (cellAt r 6) == "LIVE") := by
    intro r hm
    obtain ⟨hlen, hdichot, hhour⟩ := hw r hm
    cases hdichot with
    | inl hlive =>
      rw [cleanupRowCond_of_live hlen hlive (by rw [hhour hlive]; exact hh0), hlive]
      decide
    | inr hfin =>
      rw [hfin]
      have h1 : (("FINAL" : String) == "LIVE") = false := by decide
      rw [h1]
      cases hx : cleanupRowCond r with
      | false => rfl
      | true => exact absurd hfin (cleanupRowCond_parts hx).2.1
  have hhour : ∀ r ∈ t, cleanupRowCond r = true → pyStrip (cellAt r 7) = h0 := by
    intro r hm hc
    obtain ⟨_, hne, _⟩ := cleanupRowCond_parts hc
    obtain ⟨_, hdichot, hh⟩ := hw r hm
    cases hdichot with
    | inl hlive => exact hh hlive
    | inr hfin => exact absurd hfin hne
  refine ⟨cleanup_eq_collapse hdr t h0 hhour, ?_, ?_⟩
  · exact filter_collapseLive_other
      (fun r hc => beq_eq_false_iff_ne.mpr (cleanupRowCond_parts hc).2.1) t
  · have h1 : (collapseLive cleanupRowCond t).filter
        (fun r => normStatus (cellAt r 6) == "LIVE") =
        (collapseLive cleanupRowCond t).filter cleanupRowCond :=
      List.filter_congr
        (fun x hx => (hcl x ((collapseLive_sublist cleanupRowCond t).subset hx)).symm)
    have h2 : t.filter (fun r => normStatus (cellAt r 6) == "LIVE") =
        t.filter cleanupRowCond :=
      List.filter_congr (fun x hx => (hcl x hx).symm)
    rw [h1, h2]
    exact filter_collapseLive_self t

/-- Witness for cleanup_keeps_last_live_spares_final on a sheet with two LIVE
duplicates of one hour bucket around a FINAL row. -/
theorem cleanup_keeps_last_live_spares_final_witness :
    (("2026-01-05 09:00" : String) ≠ "" ∧
      ∀ r ∈ [["2026-01-05", "A", "", "", "", "", "LIVE", "2026-01-05 09:00"],
          ["2026-01-05", "F", "", "", "", "", "FINAL", "2026-01-05 09:00"],
          ["2026-01-05", "B", "", "", "", "", "LIVE", "2026-01-05 09:00"]],
        7 < r.length ∧
        (normStatus (cellAt r 6) = "LIVE" ∨ normStatus (cellAt r 6) = "FINAL") ∧
        (normStatus (cellAt r 6) = "LIVE" →
          pyStrip (cellAt r 7) = "2026-01-05 09:00")) ∧
    cleanupHourlyDuplicates
        (["Date"] :: [["2026-01-05", "A", "", "", "", "", "LIVE", "2026-01-05 09:00"],
          ["2026-01-05", "F", "", "", "", "", "FINAL", "2026-01-05 09:00"],
          ["2026-01-05", "B", "", "", "", "", "LIVE", "2026-01-05 09:00"]]) =
      ["Date"] :: collapseLive cleanupRowCond
        [["2026-01-05", "A", "", "", "", "", "LIVE", "2026-01-05 09:00"],
          ["2026-01-05", "F", "", "", "", "", "FINAL", "2026-01-05 09:00"],
          ["2026-01-05", "B", "", "", "", "", "LIVE", "2026-01-05 09:00"]] :=
  ⟨⟨by decide, by decide⟩,
    (cleanup_keeps_last_live_spares_final ["Date"]
      [["2026-01-05", "A", "", "", "", "", "LIVE", "2026-01-05 09:00"],
        ["2026-01-05", "F", "", "", "", "", "FINAL", "2026-01-05 09:00"],
        ["2026-01-05", "B", "", "", "", "", "LIVE", "2026-01-05 09:00"]]
      "2026-01-05 09:00" (by decide) (by decide)).1⟩

/-- Counterexample to C5 as stated: in get_publisher_payouts two result rows
sharing the publisher key are not merged at all — both survive as separate
records with their own payouts, so the fetch-normalization step does not apply
the summation rule. -/
theorem fetch_merge_not_summed_counterexample :
    ((getPublisherPayoutsExtract
        [{ publisherName := some "P", payoutAmount := some 10 },
          { publisherName := some "P", payoutAmount := some 5 }]).filter
      (fun p => p.publisher.getD "" == "P")).length = 2 ∧
    ¬ ((getPublisherPayoutsExtract
        [{ publisherName := some "P", payoutAmount := some 10 },
          { publisherName := some "P", payoutAmount := some 5 }]).filter
      (fun p => p.publisher.getD "" == "P")).length = 1 ∧
    (getPublisherPayoutsExtract
        [{ publisherName := some "P", payoutAmount := some 10 },
          { publisherName := some "P", payoutAmount := some 5 }]).map
      (fun p => p.payout.getD 0) = [10, 5] :=
  ⟨by decide, by decide, by decide⟩

/-- C5 amended: the duplicate-key summation rule holds in the cumulative-hourly
step — the dict entry of a key is the arithmetic sum of all rows with that key —
while get_publisher_payouts performs no merging: it emits exactly one record per
accepted response row. -/
theorem duplicate_key_summation_cumulative_only
    (ps : List Pub) (k : String × String × String)
    (hne : ps.filter (fun p => keyOf3 p == k) ≠ []) :
    dictLookup (accumHour [] ps) k =
      some ((ps.filter (fun p => keyOf3 p == k)).foldl addTotals zeroTotals) ∧
    ∀ gs : List RingbaGroup,
      (getPublisherPayoutsExtract gs).length = gs.countP ringbaAccepts := by
  constructor
  · exact accumHour_lookup_from_none ps [] rfl hne
  · intro gs
    induction gs with
    | nil => rfl
    | cons g rest ih =>
      cases hg : ringbaAccepts g with
      | true =>
        have hstep : getPublisherPayoutsExtract (g :: rest) =
            { publisher := some (pickName g), payout := some (pickPayout g) } ::
              getPublisherPayoutsExtract rest := by
          unfold getPublisherPayoutsExtract
          rw [List.filterMap_cons]
          rw [if_pos hg]
        rw [hstep, List.countP_cons, hg]
        simp only [List.length_cons, ih, if_true]
      | false =>
        have hstep : getPublisherPayoutsExtract (g :: rest) =
            getPublisherPayoutsExtract rest := by
          unfold getPublisherPayoutsExtract
          rw [List.filterMap_cons]
          rw [if_neg (by rw [hg]; exact Bool.false_ne_true)]
        rw [hstep, List.countP_cons, hg]
        simp only [ih, Bool.false_eq_true, if_false, Nat.add_zero]

/-- Witness for duplicate_key_summation_cumulative_only on one fetch holding two
rows of the same key. -/
theorem duplicate_key_summation_cumulative_only_witness :
    ([({ publisher := some "P", payout := some 10 } : Pub),
        { publisher := some "P", payout := some 5 }].filter
      (fun p => keyOf3 p == ("P", "", ""))) ≠ [] ∧
    dictLookup (accumHour []
        [({ publisher := some "P", payout := some 10 } : Pub),
          { publisher := some "P", payout := some 5 }]) ("P", "", "") =
      some (([({ publisher := some "P", payout := some 10 } : Pub),
          { publisher := some "P", payout := some 5 }].filter
        (fun p => keyOf3 p == ("P", "", ""))).foldl addTotals zeroTotals) :=
  ⟨by decide,
    (duplicate_key_summation_cumulative_only
      [({ publisher := some "P", payout := some 10 } : Pub),
        { publisher := some "P", payout := some 5 }] ("P", "", "") (by decide)).1⟩

/-- C4: If the cumulative total of a key through hour H is a (nonzero-payout)
entry and the fetch for hour H+1 either fails, returns no row for the key, or
returns only zero-valued rows for it, then the cumulative entry at hour H+1
equals the entry through hour H — the running total never resets. -/
theorem cumulative_hourly_no_reset (fh : Nat → Except String (List Pub)) (H : Nat)
    (k : String × String × String) (tot : Totals)
    (h9 : 9 ≤ H)
    (hsum : dictLookup (cumulativeDict fh H) k = some tot)
    (hnz : tot.payout ≠ 0)
    (hnext : ∀ ps, fh (H + 1) = Except.ok ps → ∀ p ∈ ps, keyOf3 p = k →
      p.payout.getD 0 = 0 ∧ p.completedCalls.getD 0 = 0 ∧ p.paidCalls.getD 0 = 0) :
    dictLookup (cumulativeDict fh (H + 1)) k = some tot := by
  rw [cumulativeDict_succ fh h9]
  cases hf : fh (H + 1) with
  | error e => exact hsum
  | ok ps => exact accumHour_lookup_zero ps _ tot hsum (hnext ps hf)

/-- Witness for cumulative_hourly_no_reset: hour 9 contributes payout 5 to key
P, hour 10 returns no rows, and the cumulative entry at hour 10 is unchanged. -/
theorem cumulative_hourly_no_reset_witness :
    ((9 : Nat) ≤ 9 ∧
      dictLookup (cumulativeDict (fun h => if h == 9
          then Except.ok [({ publisher := some "P", payout := some 5 } : Pub)]
          else Except.ok []) 9) ("P", "", "") = some ⟨5, 0, 0⟩ ∧
      (⟨5, 0, 0⟩ : Totals).payout ≠ 0) ∧
    dictLookup (cumulativeDict (fun h => if h == 9
        then Except.ok [({ publisher := some "P", payout := some 5 } : Pub)]
        else Except.ok []) (9 + 1)) ("P", "", "") = some ⟨5, 0, 0⟩ :=
  ⟨⟨by decide, by decide, by decide⟩,
    cumulative_hourly_no_reset
      (fun h => if h == 9
        then Except.ok [({ publisher := some "P", payout := some 5 } : Pub)]
        else Except.ok []) 9 ("P", "", "") ⟨5, 0, 0⟩ (by decide) (by decide) (by decide)
      (by
        intro ps hps p hp
        have h0 : ([] : List Pub) = ps := Except.ok.inj hps
        rw [← h0] at hp
        exact absurd hp (List.not_mem_nil p))⟩

/-- Counterexample to C6 as stated: run_end_of_day_report drops nothing — a
fetched record dated the run's own current local date ("2026-10-12" here) is
written to the daily sheet as a row carrying that date. -/
theorem end_of_day_writes_today_dated_record :
    (runEndOfDayReport
        [({ date := some "2026-10-12", publisher := some "P", payout := some 5 } : Pub)]
        [dailyHeader]).tail.filter
      (fun r => pyStrip (cellAt r 0) == "2026-10-12") =
      [["2026-10-12", "P", "", "5", "", "FINAL"]] := by
  decide

/-- C6 amended: run_end_of_day_report performs no date-based dropping — every
fetched record, whatever its date (including the run's current date), is handed
to write_publisher_payouts and written as a row of the daily sheet. -/
theorem end_of_day_no_date_filtering (pubs : List Pub) (s : Sheet) (hne : pubs ≠ []) :
    runEndOfDayReport pubs s =
      dailyHeader :: (s.tail.filter (fun r => !delDateCond (datesOf pubs) 0 r))
        ++ pubs.map payoutRow := by
  unfold runEndOfDayReport
  rw [if_neg (by
    cases pubs with
    | nil => exact absurd rfl hne
    | cons a l => simp)]
  exact writePublisherPayouts_false s pubs hne

/-- Witness for end_of_day_no_date_filtering with one record dated the run day. -/
theorem end_of_day_no_date_filtering_witness :
    ([({ date := some "2026-10-12", publisher := some "P", payout := some 5 } : Pub)] ≠
      ([] : List Pub)) ∧
    runEndOfDayReport
        [({ date := some "2026-10-12", publisher := some "P", payout := some 5 } : Pub)]
        [dailyHeader] =
      dailyHeader :: (([dailyHeader] : Sheet).tail.filter
          (fun r => !delDateCond (datesOf
            [({ date := some "2026-10-12", publisher := some "P", payout := some 5 } : Pub)])
            0 r))
        ++ [({ date := some "2026-10-12", publisher := some "P", payout := some 5 } : Pub)].map
            payoutRow :=
  ⟨by decide,
    end_of_day_no_date_filtering
      [({ date := some "2026-10-12", publisher := some "P", payout := some 5 } : Pub)]
      [dailyHeader] (by decide)⟩

/-! ## Support for the historical-backfill idempotence claim -/

theorem delDateCond_payoutRow {p : Pub} {D : String} (hd : p.date = some D)
    (hDs : pyStrip D = D) : delDateCond [D] 0 (payoutRow p) = true := by
  unfold delDateCond
  have h1 : decide (0 < (payoutRow p).length) = true := by
    rw [payoutRow_length]
    rfl
  have h2 : cellAt (payoutRow p) 0 = D := by
    rw [payoutRow_cell0, hd]
    rfl
  rw [h1, h2, hDs]
  have h3 : ([D] : List String).contains D = true := by simp
  rw [h3]
  rfl

theorem dateBeq_false_of_not_delCond {r : Row} {D : String} (hD0 : D ≠ "")
    (h : delDateCond [D] 0 r = false) : (pyStrip (cellAt r 0) == D) = false := by
  unfold delDateCond at h
  rw [beq_eq_false_iff_ne]
  intro hcontr
  cases hlen : decide (0 < r.length) with
  | false =>
    have hl0 : r.length = 0 := by
      have := of_decide_eq_false hlen
      omega
    have hr0 : r = [] := List.eq_nil_of_length_eq_zero hl0
    rw [hr0] at hcontr
    have hc0 : pyStrip (cellAt ([] : Row) 0) = "" := rfl
    rw [hc0] at hcontr
    exact hD0 hcontr.symm
  | true =>
    rw [hlen, Bool.true_and] at h
    rw [hcontr] at h
    simp at h

theorem countP_eq_one_of_nodup {a : Type} [DecidableEq a] {l : List a} {x : a}
    (hn : l.Nodup) (hx : x ∈ l) : l.countP (fun y => decide (y = x)) = 1 := by
  induction l with
  | nil => cases hx
  | cons b t ih =>
    rw [List.countP_cons]
    rcases List.mem_cons.mp hx with heq | hxt
    · subst heq
      have hbt : x ∉ t := (List.nodup_cons.mp hn).1
      have ht0 : t.countP (fun y => decide (y = x)) = 0 := by
        rw [List.countP_eq_zero]
        intro z hz
        simp only [decide_eq_true_eq]
        exact fun hzx => hbt (hzx ▸ hz)
      rw [ht0]
      simp
    · have hbx : ¬ (b = x) := by
        intro hcontr
        subst hcontr
        exact (List.nodup_cons.mp hn).1 hxt
      rw [ih (List.nodup_cons.mp hn).2 hxt]
      simp [hbx]

/-- Counterexample to C3 as stated: two fetched records sharing the
(publisher, campaign) key "P"/"C" for date 2026-01-05 each get their own row,
so after the second backfill run the sheet holds two rows for that key and
date, not exactly one. -/
theorem historical_backfill_two_rows_per_key :
    ((writePublisherPayouts
        (writePublisherPayouts [dailyHeader]
          [({ date := some "2026-01-05", publisher := some "P", campaign := some "C", payout := some 1 } : Pub),
            { date := some "2026-01-05", publisher := some "P", campaign := some "C", payout := some 2 }] false)
        [({ date := some "2026-01-05", publisher := some "P", campaign := some "C", payout := some 1 } : Pub),
          { date := some "2026-01-05", publisher := some "P", campaign := some "C", payout := some 2 }]
        false).tail.filter
      (fun r => (pyStrip (cellAt r 0) == "2026-01-05") && (cellAt r 1 == "P") &&
        (cellAt r 2 == "C"))).length = 2 ∧
    ¬ ((writePublisherPayouts
        (writePublisherPayouts [dailyHeader]
          [({ date := some "2026-01-05", publisher := some "P", campaign := some "C", payout := some 1 } : Pub),
            { date := some "2026-01-05", publisher := some "P", campaign := some "C", payout := some 2 }] false)
        [({ date := some "2026-01-05", publisher := some "P", campaign := some "C", payout := some 1 } : Pub),
          { date := some "2026-01-05", publisher := some "P", campaign := some "C", payout := some 2 }]
        false).tail.filter
      (fun r => (pyStrip (cellAt r 0) == "2026-01-05") && (cellAt r 1 == "P") &&
        (cellAt r 2 == "C"))).length = 1 :=
  ⟨by decide, by decide⟩

/-- C3 amended: when every fetched record is dated D and the records carry
pairwise-distinct (publisher, campaign) keys, re-running
write_publisher_payouts with clear_existing=False is idempotent; after a run
the rows dated D are exactly the freshly written rows (one FINAL row per key,
in fetch order), and every row dated D has status FINAL in column F. -/
theorem write_publisher_payouts_idempotent_unique_keys (s : Sheet) (pubs : List Pub)
    (D : String) (hne : pubs ≠ []) (hdate : ∀ p ∈ pubs, p.date = some D)
    (hDs : pyStrip D = D) (hD0 : D ≠ "") (hkeys : (pubs.map pubKey).Nodup) :
    writePublisherPayouts (writePublisherPayouts s pubs false) pubs false =
      writePublisherPayouts s pubs false ∧
    (writePublisherPayouts s pubs false).tail.filter
        (fun r => pyStrip (cellAt r 0) == D) = pubs.map payoutRow ∧
    (∀ p ∈ pubs,
      ((writePublisherPayouts s pubs false).tail.filter
        (fun r => (pyStrip (cellAt r 0) == D) && (cellAt r 1 == p.publisher.getD "") &&
          (cellAt r 2 == p.campaign.getD ""))).length = 1) ∧
    (∀ r ∈ (writePublisherPayouts s pubs false).tail,
      pyStrip (cellAt r 0) = D → cellAt r 5 = "FINAL") := by
  have hds : datesOf pubs = [D] := datesOf_const hne hdate hDs hD0
  have hW := writePublisherPayouts_false s pubs hne
  rw [hds] at hW
  have hAmem : ∀ r ∈ s.tail.filter (fun r => !delDateCond [D] 0 r),
      delDateCond [D] 0 r = false := by
    intro r hr
    have h2 := (List.mem_filter.mp hr).2
    simpa using h2
  have hrowsDel : ∀ r ∈ pubs.map payoutRow, delDateCond [D] 0 r = true := by
    intro r hr
    obtain ⟨p, hp, rfl⟩ := List.mem_map.mp hr
    exact delDateCond_payoutRow (hdate p hp) hDs
  have hAdate : ∀ r ∈ s.tail.filter (fun r => !delDateCond [D] 0 r),
      (pyStrip (cellAt r 0) == D) = false :=
    fun r hr => dateBeq_false_of_not_delCond hD0 (hAmem r hr)
  have hrowsDate : ∀ r ∈ pubs.map payoutRow, (pyStrip (cellAt r 0) == D) = true := by
    intro r hr
    obtain ⟨p, hp, rfl⟩ := List.mem_map.mp hr
    rw [payoutRow_cell0, hdate p hp]
    simp [hDs]
  have hfilA : (s.tail.filter (fun r => !delDateCond [D] 0 r)).filter
      (fun r => !delDateCond [D] 0 r) = s.tail.filter (fun r => !delDateCond [D] 0 r) :=
    List.filter_eq_self.mpr (fun r hr => by rw [hAmem r hr]; rfl)
  have hfilR : (pubs.map payoutRow).filter (fun r => !delDateCond [D] 0 r) = [] := by
    rw [List.filter_eq_nil_iff]
    intro r hr
    rw [hrowsDel r hr]
    decide
  refine ⟨?_, ?_, ?_, ?_⟩
  · have hW2 := writePublisherPayouts_false (writePublisherPayouts s pubs false) pubs hne
    rw [hds] at hW2
    rw [hW2, hW]
    simp only [List.cons_append, List.tail_cons]
    rw [List.filter_append, hfilA, hfilR, List.append_nil]
  · rw [hW]
    simp only [List.cons_append, List.tail_cons]
    rw [List.filter_append]
    have h1 : (s.tail.filter (fun r => !delDateCond [D] 0 r)).filter
        (fun r => pyStrip (cellAt r 0) == D) = [] := by
      rw [List.filter_eq_nil_iff]
      intro r hr
      rw [hAdate r hr]
      exact Bool.false_ne_true
    have h2 : (pubs.map payoutRow).filter (fun r => pyStrip (cellAt r 0) == D) =
        pubs.map payoutRow := List.filter_eq_self.mpr hrowsDate
    rw [h1, h2, List.nil_append]
  · intro p hp
    rw [hW]
    simp only [List.cons_append, List.tail_cons]
    rw [List.filter_append, List.length_append]
    have h1 : (s.tail.filter (fun r => !delDateCond [D] 0 r)).filter
        (fun r => (pyStrip (cellAt r 0) == D) && (cellAt r 1 == p.publisher.getD "") &&
          (cellAt r 2 == p.campaign.getD "")) = [] := by
      rw [List.filter_eq_nil_iff]
      intro r hr
      rw [hAdate r hr]
      simp
    have h2 : ((pubs.map payoutRow).filter
        (fun r => (pyStrip (cellAt r 0) == D) && (cellAt r 1 == p.publisher.getD "") &&
          (cellAt r 2 == p.campaign.getD ""))).length = 1 := by
      rw [← List.countP_eq_length_filter, List.countP_map]
      have hcong : pubs.countP ((fun r => (pyStrip (cellAt r 0) == D) &&
            (cellAt r 1 == p.publisher.getD "") && (cellAt r 2 == p.campaign.getD "")) ∘
              payoutRow) =
          pubs.countP (fun q => decide (pubKey q = pubKey p)) := by
        refine List.countP_congr (fun q hq => ?_)
        simp only [Function.comp, payoutRow_cell0, payoutRow_cell1, payoutRow_cell2,
          hdate q hq, Option.getD_some, hDs, beq_self_eq_true, Bool.true_and]
        simp [pubKey, Prod.ext_iff]
      rw [hcong]
      have hone := countP_eq_one_of_nodup hkeys (List.mem_map.mpr ⟨p, hp, rfl⟩)
      rw [List.countP_map] at hone
      exact hone
    rw [h1, h2]
    rfl
  · intro r hr hrd
    rw [hW] at hr
    simp only [List.cons_append, List.tail_cons] at hr
    rcases List.mem_append.mp hr with hra | hrr
    · have hfalse := hAdate r hra
      rw [beq_eq_false_iff_ne] at hfalse
      exact absurd hrd hfalse
    · obtain ⟨p, hp, rfl⟩ := List.mem_map.mp hrr
      exact payoutRow_cell5 p

/-- Witness for write_publisher_payouts_idempotent_unique_keys with two
distinct keys dated 2026-01-05 on an empty daily sheet. -/
theorem write_publisher_payouts_idempotent_unique_keys_witness :
    ([({ date := some "2026-01-05", publisher := some "P", campaign := some "C", payout := some 1 } : Pub),
        { date := some "2026-01-05", publisher := some "Q", campaign := some "C", payout := some 2 }] ≠
      ([] : List Pub)) ∧
    (∀ p ∈ [({ date := some "2026-01-05", publisher := some "P", campaign := some "C", payout := some 1 } : Pub),
        { date := some "2026-01-05", publisher := some "Q", campaign := some "C", payout := some 2 }],
      p.date = some "2026-01-05") ∧
    pyStrip "2026-01-05" = "2026-01-05" ∧
    "2026-01-05" ≠ "" ∧
    (([({ date := some "2026-01-05", publisher := some "P", campaign := some "C", payout := some 1 } : Pub),
        { date := some "2026-01-05", publisher := some "Q", campaign := some "C", payout := some 2 }].map
          pubKey).Nodup) ∧
    writePublisherPayouts
        (writePublisherPayouts [dailyHeader]
          [({ date := some "2026-01-05", publisher := some "P", campaign := some "C", payout := some 1 } : Pub),
            { date := some "2026-01-05", publisher := some "Q", campaign := some "C", payout := some 2 }] false)
        [({ date := some "2026-01-05", publisher := some "P", campaign := some "C", payout := some 1 } : Pub),
          { date := some "2026-01-05", publisher := some "Q", campaign := some "C", payout := some 2 }]
        false =
      writePublisherPayouts [dailyHeader]
        [({ date := some "2026-01-05", publisher := some "P", campaign := some "C", payout := some 1 } : Pub),
          { date := some "2026-01-05", publisher := some "Q", campaign := some "C", payout := some 2 }] false :=
  ⟨by decide, by decide, by decide, by decide, by decide,
    (write_publisher_payouts_idempotent_unique_keys [dailyHeader]
      [({ date := some "2026-01-05", publisher := some "P", campaign := some "C", payout := some 1 } : Pub),
        { date := some "2026-01-05", publisher := some "Q", campaign := some "C", payout := some 2 }]
      "2026-01-05" (by decide) (by decide) (by decide) (by decide) (by decide)).1⟩

end PublisherReport
